import Mathlib

/-!
# Verification of the plex-volumio plugin core

A shallow embedding, in Lean 4, of the pure core of the plex-volumio
plugin: the address classifier and connection resolver of `index.js`, the
stream URL builders of the compiled `dist` stream resolver (and the older
copy in `src/core/stream-resolver.ts`), the URI/token helpers of the
`dist` uri-utils and `src/volumio/uri-utils.ts`, the browse handlers, the
`PlexService` facade, and the state-masking hook of
`src/volumio/adapter.ts`.

JavaScript strings are modeled as `List Char` (Lean `Char` is a Unicode
scalar value, matching well-formed JS strings).  JS numbers that hold
integers are modeled as `Nat`/`Int`.  Stateful or network-bound code is
modeled by passing the fetched data explicitly.
-/

set_option maxRecDepth 100000

/-- JS strings are lists of Unicode scalar values. -/
abbrev JStr := List Char

/-- `String.prototype.startsWith` on our string model. -/
def jsStartsWith (pre s : JStr) : Bool := pre.isPrefixOf s

/-- `String.prototype.includes` (substring test). -/
def jsIncludes (pat : JStr) : JStr → Bool
  | [] => pat.isPrefixOf []
  | c :: rest => pat.isPrefixOf (c :: rest) || jsIncludes pat rest

/-- Decimal value of a digit list (the effect of JS `parseInt` on an
all-digit string). -/
def digitsToNat (l : JStr) : Nat :=
  l.foldl (fun acc c => acc * 10 + (c.toNat - 48)) 0

/-- Parse one `\d+` group: the leading digit run and the rest; `none` when
there is no leading digit (`+` demands at least one). -/
def digitGroup (l : JStr) : Option (JStr × JStr) :=
  if (l.takeWhile Char.isDigit).isEmpty then none
  else some (l.takeWhile Char.isDigit, l.dropWhile Char.isDigit)

/-- Parse `(\d+)-`: a digit group followed by a literal dash. -/
def parseGroupDash (l : JStr) : Option (JStr × JStr) :=
  match digitGroup l with
  | some (g, '-' :: r) => some (g, r)
  | _ => none

/-- The dash-encoded IPv4 prefix match `^(\d+)-(\d+)-(\d+)-(\d+)\.` used by
`isNoisyAddress` and `connSortScore` in `index.js`; returns the decoded
dotted address the source assembles from the four matched groups. -/
def dashDecode (host : JStr) : Option JStr :=
  match parseGroupDash host with
  | none => none
  | some (g1, r1) =>
    match parseGroupDash r1 with
    | none => none
    | some (g2, r2) =>
      match parseGroupDash r2 with
      | none => none
      | some (g3, r3) =>
        match digitGroup r3 with
        | some (g4, '.' :: _) => some (g1 ++ '.' :: g2 ++ '.' :: g3 ++ '.' :: g4)
        | _ => none

theorem digitGroup_eq_some {l g r : JStr} (h : digitGroup l = some (g, r)) :
    g ++ r = l ∧ g ≠ [] := by
  unfold digitGroup at h
  by_cases hg : (l.takeWhile Char.isDigit).isEmpty
  · rw [if_pos hg] at h; cases h
  · rw [if_neg hg] at h
    cases h
    exact ⟨List.takeWhile_append_dropWhile _ _, by simpa [List.isEmpty_iff] using hg⟩

theorem parseGroupDash_eq_some {l g r : JStr} (h : parseGroupDash l = some (g, r)) :
    g ++ '-' :: r = l ∧ g ≠ [] := by
  unfold parseGroupDash at h
  split at h
  · next g' r' heq =>
    cases h
    exact digitGroup_eq_some heq
  · exact absurd h (by simp)

/-- The decoded dotted address is strictly shorter than the dash-encoded
host (the dot and suffix are dropped), so the recursion of the source's
`isNoisyAddress` terminates. -/
theorem dashDecode_length {host d : JStr} (h : dashDecode host = some d) :
    d.length < host.length := by
  unfold dashDecode at h
  split at h
  · exact absurd h (by simp)
  next g1 r1 h1 =>
  split at h
  · exact absurd h (by simp)
  next g2 r2 h2 =>
  split at h
  · exact absurd h (by simp)
  next g3 r3 h3 =>
  split at h
  · next g4 r4 heq =>
    cases h
    obtain ⟨e1, _⟩ := parseGroupDash_eq_some h1
    obtain ⟨e2, _⟩ := parseGroupDash_eq_some h2
    obtain ⟨e3, _⟩ := parseGroupDash_eq_some h3
    obtain ⟨e4, _⟩ := digitGroup_eq_some heq
    have l1 : g1.length + 1 + r1.length = host.length := by
      rw [← e1]; simp only [List.length_append, List.length_cons]; omega
    have l2 : g2.length + 1 + r2.length = r1.length := by
      rw [← e2]; simp only [List.length_append, List.length_cons]; omega
    have l3 : g3.length + 1 + r3.length = r2.length := by
      rw [← e3]; simp only [List.length_append, List.length_cons]; omega
    have l4 : g4.length + 1 ≤ r3.length := by
      rw [← e4]; simp only [List.length_append, List.length_cons]; omega
    simp only [List.length_append, List.length_cons]
    omega
  · exact absurd h (by simp)

-- ══════════════════════════════════════════════════════════════════════
-- AddressClassifier (`index.js`, `isNoisyAddress` / `connSortScore`)
-- ══════════════════════════════════════════════════════════════════════

/-- Second half of the regex `^172\.(1[6-9]|2\d|3[01])\.`: the two
characters after `"172."` and the closing dot. -/
def bridge172Tail : JStr → Bool
  | c1 :: c2 :: '.' :: _ =>
    (c1 == '1' && decide ('6' ≤ c2) && decide (c2 ≤ '9'))
      || (c1 == '2' && c2.isDigit)
      || (c1 == '3' && (c2 == '0' || c2 == '1'))
  | _ => false

/-- The test `/^172\.(1[6-9]|2\d|3[01])\./.test(host)` (Docker bridge
networks 172.16.0.0/12). -/
def bridge172 (host : JStr) : Bool :=
  jsStartsWith "172.".toList host && bridge172Tail (host.drop 4)

/-- The three direct prefix tests of `isNoisyAddress` in `index.js`:
172.16-31.x (bridge), 127.x (loopback), 169.254.x (link-local). -/
def isNoisyCore (host : JStr) : Bool :=
  bridge172 host || jsStartsWith "127.".toList host
    || jsStartsWith "169.254.".toList host

/-- Fueled realization of `isNoisyAddress` from `index.js`.  The source
recurses on the dotted address decoded out of a dash-encoded hostname;
`dashDecode_length` shows the argument shrinks, so fuel `host.length`
always suffices (`isNoisyAddress_eq` recovers the source's exact
defining equation). -/
def isNoisyGo : Nat → JStr → Bool
  | 0, host => isNoisyCore host
  | fuel + 1, host =>
    isNoisyCore host
      || match dashDecode host with
         | some ip => isNoisyGo fuel ip
         | none => false

/-- `isNoisyAddress(host)` from `index.js`. -/
def isNoisyAddress (host : JStr) : Bool :=
  isNoisyGo host.length host

theorem isNoisyGo_fuel :
    ∀ {f : Nat} (g : Nat) (host : JStr), host.length ≤ f → host.length ≤ g →
      isNoisyGo f host = isNoisyGo g host := by
  intro f
  induction f with
  | zero =>
    intro g host hf _
    have : host = [] := List.length_eq_zero.mp (Nat.le_zero.mp hf)
    subst this
    cases g with
    | zero => rfl
    | succ g =>
      have : dashDecode [] = none := by decide
      simp [isNoisyGo, this]
  | succ f ih =>
    intro g host hf hg
    cases g with
    | zero =>
      have : host = [] := List.length_eq_zero.mp (Nat.le_zero.mp hg)
      subst this
      have : dashDecode [] = none := by decide
      simp [isNoisyGo, this]
    | succ g =>
      simp only [isNoisyGo]
      cases hdec : dashDecode host with
      | none => rfl
      | some ip =>
        have hlt := dashDecode_length hdec
        show (isNoisyCore host || isNoisyGo f ip) = (isNoisyCore host || isNoisyGo g ip)
        rw [ih g ip (by omega) (by omega)]

/-- The defining equation of `isNoisyAddress` exactly as written in
`index.js`: the three prefix tests, then the dash-decode recursion. -/
theorem isNoisyAddress_eq (host : JStr) :
    isNoisyAddress host =
      (isNoisyCore host
        || match dashDecode host with
           | some ip => isNoisyAddress ip
           | none => false) := by
  unfold isNoisyAddress
  cases hlen : host.length with
  | zero =>
    have : host = [] := List.length_eq_zero.mp hlen
    subst this
    have : dashDecode [] = none := by decide
    simp [isNoisyGo, this]
  | succ n =>
    simp only [isNoisyGo]
    cases hdec : dashDecode host with
    | none => rfl
    | some ip =>
      have hlt := dashDecode_length hdec
      show (isNoisyCore host || isNoisyGo n ip)
        = (isNoisyCore host || isNoisyAddress ip)
      unfold isNoisyAddress
      rw [isNoisyGo_fuel (f := n) ip.length ip (by omega) (le_refl _)]

/-- The match `^192\.168\.(\d+)\./` used by `connSortScore`: returns the
third-octet digit group. -/
def m192 (ip : JStr) : Option JStr :=
  if jsStartsWith "192.168.".toList ip then
    match digitGroup (ip.drop 8) with
    | some (g, '.' :: _) => some g
    | _ => none
  else none

/-- `connSortScore(host)` from `index.js`: 192.168.x.* scores its third
octet, 10.* scores 300, anything else 400; dash-encoded hostnames are
decoded first. -/
def connSortScore (host : JStr) : Nat :=
  let ip := match dashDecode host with | some d => d | none => host
  match m192 ip with
  | some third => digitsToNat third
  | none => if jsStartsWith "10.".toList ip then 300 else 400

-- ══════════════════════════════════════════════════════════════════════
-- Structure lemmas for dash-encoded hostnames
-- ══════════════════════════════════════════════════════════════════════

theorem takeWhile_append_not {α : Type} {p : α → Bool} {g : List α} {y : α}
    (hg : ∀ x ∈ g, p x = true) (hy : p y = false) (t : List α) :
    (g ++ y :: t).takeWhile p = g ∧ (g ++ y :: t).dropWhile p = y :: t := by
  induction g with
  | nil => simp [List.takeWhile_cons, List.dropWhile_cons, hy]
  | cons a g ih =>
    have ha : p a = true := hg a (by simp)
    have ih' := ih (fun x hx => hg x (by simp [hx]))
    simp [List.takeWhile_cons, List.dropWhile_cons, ha, ih'.1, ih'.2]

theorem digitGroup_append {g : JStr} {y : Char}
    (hg : ∀ x ∈ g, x.isDigit = true) (hne : g ≠ []) (hy : y.isDigit = false)
    (t : JStr) :
    digitGroup (g ++ y :: t) = some (g, y :: t) := by
  have h := takeWhile_append_not (p := Char.isDigit) hg hy t
  unfold digitGroup
  rw [h.1, h.2, if_neg (by simpa [List.isEmpty_iff] using hne)]

theorem parseGroupDash_append {g : JStr}
    (hg : ∀ x ∈ g, x.isDigit = true) (hne : g ≠ []) (t : JStr) :
    parseGroupDash (g ++ '-' :: t) = some (g, t) := by
  unfold parseGroupDash
  rw [digitGroup_append hg hne (by decide) t]
  rfl

theorem dashDecode_append {g1 g2 g3 g4 suffix : JStr}
    (h1 : g1 ≠ []) (hd1 : ∀ x ∈ g1, x.isDigit = true)
    (h2 : g2 ≠ []) (hd2 : ∀ x ∈ g2, x.isDigit = true)
    (h3 : g3 ≠ []) (hd3 : ∀ x ∈ g3, x.isDigit = true)
    (h4 : g4 ≠ []) (hd4 : ∀ x ∈ g4, x.isDigit = true) :
    dashDecode (g1 ++ '-' :: (g2 ++ '-' :: (g3 ++ '-' :: (g4 ++ '.' :: suffix))))
      = some (g1 ++ '.' :: g2 ++ '.' :: g3 ++ '.' :: g4) := by
  unfold dashDecode
  simp only [parseGroupDash_append hd1 h1, parseGroupDash_append hd2 h2,
    parseGroupDash_append hd3 h3,
    digitGroup_append hd4 h4 (by decide : ('.').isDigit = false)]

theorem beq_dash_digit {x : Char} (hx : x.isDigit = true) : ('-' == x) = false := by
  cases hb : ('-' == x)
  · rfl
  · exfalso
    have : '-' = x := eq_of_beq hb
    subst this
    exact absurd hx (by decide)

theorem beq_dot_digit {x : Char} (hx : x.isDigit = true) : ('.' == x) = false := by
  cases hb : ('.' == x)
  · rfl
  · exfalso
    have : '.' = x := eq_of_beq hb
    subst this
    exact absurd hx (by decide)

/-- No pattern whose fourth character is a dot is a prefix of a string
that starts with a digit group followed by a dash, provided the first
three pattern characters are digits themselves. -/
theorem isPrefixOf_dot3_false {p1 p2 p3 : Char} {rest g t : JStr}
    (hg : ∀ x ∈ g, x.isDigit = true)
    (hp1 : p1.isDigit = true) (hp2 : p2.isDigit = true) (hp3 : p3.isDigit = true) :
    (p1 :: p2 :: p3 :: '.' :: rest).isPrefixOf (g ++ '-' :: t) = false := by
  have hne1 : (p1 == '-') = false := by
    cases hb : (p1 == '-')
    · rfl
    · exact absurd (eq_of_beq hb ▸ hp1) (by decide)
  have hne2 : (p2 == '-') = false := by
    cases hb : (p2 == '-')
    · rfl
    · exact absurd (eq_of_beq hb ▸ hp2) (by decide)
  have hne3 : (p3 == '-') = false := by
    cases hb : (p3 == '-')
    · rfl
    · exact absurd (eq_of_beq hb ▸ hp3) (by decide)
  match g, hg with
  | [], _ => simp [List.isPrefixOf, hne1]
  | [x1], hg => simp [List.isPrefixOf, hne2]
  | [x1, x2], hg => simp [List.isPrefixOf, hne3]
  | [x1, x2, x3], hg => simp [List.isPrefixOf]
  | x1 :: x2 :: x3 :: x4 :: g', hg =>
    have hx4 : ('.' == x4) = false := beq_dot_digit (hg x4 (by simp))
    simp [List.isPrefixOf, hx4]

/-- None of the three noisy-prefix tests can fire on a hostname that
starts with a digit group followed by a dash. -/
theorem isNoisyCore_dash_false {g : JStr}
    (hg : ∀ x ∈ g, x.isDigit = true) (t : JStr) :
    isNoisyCore (g ++ '-' :: t) = false := by
  unfold isNoisyCore bridge172 jsStartsWith
  rw [show "172.".toList = ['1', '7', '2', '.'] from rfl,
    show "127.".toList = ['1', '2', '7', '.'] from rfl,
    show "169.254.".toList = ['1', '6', '9', '.', '2', '5', '4', '.'] from rfl]
  rw [isPrefixOf_dot3_false hg (by decide) (by decide) (by decide),
    isPrefixOf_dot3_false hg (by decide) (by decide) (by decide),
    isPrefixOf_dot3_false hg (by decide) (by decide) (by decide)]
  rfl

/-- **C5.** For every hostname of the dash-encoded form
`a-b-c-d.suffix` (four nonempty numeric groups separated by dashes,
followed by a dot and a suffix), `isNoisyAddress` returns the same
boolean as `isNoisyAddress` applied to the decoded dotted address
`a.b.c.d`. -/
theorem isNoisyAddress_dash_encoded
    (g1 g2 g3 g4 suffix : JStr)
    (h1 : g1 ≠ []) (hd1 : ∀ x ∈ g1, x.isDigit = true)
    (h2 : g2 ≠ []) (hd2 : ∀ x ∈ g2, x.isDigit = true)
    (h3 : g3 ≠ []) (hd3 : ∀ x ∈ g3, x.isDigit = true)
    (h4 : g4 ≠ []) (hd4 : ∀ x ∈ g4, x.isDigit = true) :
    isNoisyAddress (g1 ++ '-' :: (g2 ++ '-' :: (g3 ++ '-' :: (g4 ++ '.' :: suffix))))
      = isNoisyAddress (g1 ++ '.' :: g2 ++ '.' :: g3 ++ '.' :: g4) := by
  rw [isNoisyAddress_eq]
  simp only [dashDecode_append h1 hd1 h2 hd2 h3 hd3 h4 hd4,
    isNoisyCore_dash_false hd1]
  simp

/-- Witness for C5 at the hostname `10-0-0-5.example.plex.direct`. -/
theorem isNoisyAddress_dash_encoded_witness :
    ("10".toList ≠ [] ∧ (∀ x ∈ "10".toList, x.isDigit = true)
      ∧ "0".toList ≠ [] ∧ (∀ x ∈ "0".toList, x.isDigit = true)
      ∧ "5".toList ≠ [] ∧ (∀ x ∈ "5".toList, x.isDigit = true))
    ∧ isNoisyAddress ("10".toList ++ '-' :: ("0".toList ++ '-' :: ("0".toList
        ++ '-' :: ("5".toList ++ '.' :: "example.plex.direct".toList))))
      = isNoisyAddress ("10".toList ++ '.' :: "0".toList ++ '.' :: "0".toList
        ++ '.' :: "5".toList) :=
  ⟨by decide,
   isNoisyAddress_dash_encoded "10".toList "0".toList "0".toList "5".toList
     "example.plex.direct".toList (by decide) (by decide) (by decide) (by decide)
     (by decide) (by decide) (by decide) (by decide)⟩

-- ══════════════════════════════════════════════════════════════════════
-- ConnectionResolver (`index.js`, `checkPlexLogin` steps 1–3)
-- ══════════════════════════════════════════════════════════════════════

/-- One raw connection descriptor from the plex.tv resources response
(`uri`, `protocol`, `address`, `port`, `local`). -/
structure RawConn where
  uri : JStr
  protocol : JStr
  address : JStr
  port : Nat
  /-- the `local` flag of the descriptor (`local` is a Lean keyword) -/
  localFlag : Bool
deriving DecidableEq

/-- A server resource from the plex.tv resources response. -/
structure PlexResource where
  clientIdentifier : JStr
  name : JStr
  connections : List RawConn
deriving DecidableEq

structure ParsedUri where
  protocol : JStr
  host : JStr
  port : Nat
deriving DecidableEq

/-- `parseConnUri` from `index.js`: the match
`^(https?):\/\/([^:/]+)(?::(\d+))?` with `Number(m[3]) || default`
defaulting the port to 443/80 (note `Number` of an absent or zero group
is falsy). -/
def parseConnUri (uri : JStr) : Option ParsedUri :=
  let proto : Option (JStr × JStr × Nat) :=
    if jsStartsWith "https://".toList uri then
      some ("https".toList, uri.drop 8, 443)
    else if jsStartsWith "http://".toList uri then
      some ("http".toList, uri.drop 7, 80)
    else none
  match proto with
  | none => none
  | some (p, rest, defPort) =>
    let host := rest.takeWhile (fun c => !(c == ':') && !(c == '/'))
    if host.isEmpty then none
    else
      let after := rest.dropWhile (fun c => !(c == ':') && !(c == '/'))
      let port :=
        match after with
        | ':' :: r2 =>
          let ds := r2.takeWhile Char.isDigit
          if ds.isEmpty then defPort
          else if digitsToNat ds = 0 then defPort else digitsToNat ds
        | _ => defPort
      some ⟨p, host, port⟩

/-- `var host = (parsed && parsed.host) ? parsed.host : c.address`. -/
def connHost (c : RawConn) : JStr :=
  match parseConnUri c.uri with
  | some p => if p.host.isEmpty then c.address else p.host
  | none => c.address

/-- `var port = (parsed && parsed.port) ? parsed.port : c.port`
(a zero port is falsy in JS). -/
def connPort (c : RawConn) : Nat :=
  match parseConnUri c.uri with
  | some p => if p.port = 0 then c.port else p.port
  | none => c.port

/-- The test `/^\d+\.\d+\.\d+\.\d+$/.test(host)` (bare numeric IPv4). -/
def isRawIpv4 (host : JStr) : Bool :=
  match digitGroup host with
  | some (_, '.' :: r1) =>
    match digitGroup r1 with
    | some (_, '.' :: r2) =>
      match digitGroup r2 with
      | some (_, '.' :: r3) =>
        match digitGroup r3 with
        | some (_, []) => true
        | _ => false
      | _ => false
    | _ => false
  | _ => false

/-- A connection candidate as pushed by `checkPlexLogin`:
`{ s: s, c: c, host: host, port: port, protocol: protocol }`. -/
structure Candidate where
  server : PlexResource
  conn : RawConn
  host : JStr
  port : Nat
  protocol : JStr
deriving DecidableEq

/-- The body of the candidate-collection loop of `checkPlexLogin`
(`index.js` step 1): filter noisy hosts and encrypted bare-IP hosts, then
recover the hidden unencrypted option for local encrypted candidates
whose hostname dash-encodes a non-noisy IPv4 address. -/
def processConn (s : PlexResource) (c : RawConn) : List Candidate :=
  let host := connHost c
  let port := connPort c
  let protocol := c.protocol
  if isNoisyAddress host then []
  else if protocol == "https".toList && isRawIpv4 host then []
  else
    { server := s, conn := c, host := host, port := port, protocol := protocol } ::
      (if protocol == "https".toList && c.localFlag then
        match dashDecode host with
        | some rawIp =>
          if isNoisyAddress rawIp then []
          else [{ server := s, conn := c, host := rawIp, port := port,
                  protocol := "http".toList }]
        | none => []
      else [])

/-- Step 1 of `checkPlexLogin` over all servers and connections. -/
def collectCandidates (servers : List PlexResource) : List Candidate :=
  servers.flatMap (fun s => s.connections.flatMap (processConn s))

/-- `'local'` / `'remote'` from the connection's `local` flag. -/
def candScope (x : Candidate) : JStr :=
  if x.conn.localFlag then "local".toList else "remote".toList

/-- The dedup key `item.s.clientIdentifier + '|' + scope + '|' +
item.protocol` of `checkPlexLogin` step 3 (note: no port). -/
def candKey (x : Candidate) : JStr :=
  x.server.clientIdentifier ++ '|' :: (candScope x ++ '|' :: x.protocol)

/-- Ordering realizing the stable JS sort
`candidates.sort((a,b) => connSortScore(a.host) - connSortScore(b.host))`:
candidates are decorated with their discovery index, and a stable sort by
score is exactly a sort by (score, index) lexicographically. -/
def rLex (a b : Nat × Candidate) : Prop :=
  connSortScore a.2.host < connSortScore b.2.host
    ∨ (connSortScore a.2.host = connSortScore b.2.host ∧ a.1 ≤ b.1)

instance : DecidableRel rLex := fun a b => by unfold rLex; infer_instance

instance : IsTotal (Nat × Candidate) rLex :=
  ⟨by intro a b; unfold rLex; omega⟩

instance : IsTrans (Nat × Candidate) rLex :=
  ⟨by intro a b c; unfold rLex; omega⟩

/-- Step 2 of `checkPlexLogin`: the ranked candidate list (with discovery
indices). -/
def rankCandidates (cands : List Candidate) : List (Nat × Candidate) :=
  List.insertionSort rLex cands.enum

/-- Step 3 of `checkPlexLogin`: walk the ranked list, keeping only the
first candidate for each key (the `seen` map of the source). -/
def dedupGo (seen : List JStr) : List (Nat × Candidate) → List (Nat × Candidate)
  | [] => []
  | x :: rest =>
    if candKey x.2 ∈ seen then dedupGo seen rest
    else x :: dedupGo (candKey x.2 :: seen) rest

/-- Ranking followed by deduplication (`checkPlexLogin` steps 2–3). -/
def rankAndDedup (cands : List Candidate) : List (Nat × Candidate) :=
  dedupGo [] (rankCandidates cands)

theorem dedupGo_filter_of_mem {k : JStr} :
    ∀ (S : List (Nat × Candidate)) (seen : List JStr), k ∈ seen →
      (dedupGo seen S).filter (fun x => candKey x.2 == k) = [] := by
  intro S
  induction S with
  | nil => intro seen _; rfl
  | cons x rest ih =>
    intro seen hk
    unfold dedupGo
    by_cases hx : candKey x.2 ∈ seen
    · rw [if_pos hx]
      exact ih seen hk
    · rw [if_neg hx]
      have hne : (candKey x.2 == k) = false := by
        rw [beq_eq_false_iff_ne]
        intro he
        exact hx (he ▸ hk)
      rw [List.filter_cons_of_neg (by simp [hne])]
      exact ih _ (by simp [hk])

theorem dedupGo_filter_of_not_mem {k : JStr} :
    ∀ (S : List (Nat × Candidate)) (seen : List JStr), k ∉ seen →
      (dedupGo seen S).filter (fun x => candKey x.2 == k)
        = (S.filter (fun x => candKey x.2 == k)).take 1 := by
  intro S
  induction S with
  | nil => intro seen _; rfl
  | cons x rest ih =>
    intro seen hk
    unfold dedupGo
    by_cases hx : candKey x.2 ∈ seen
    · rw [if_pos hx]
      have hne : (candKey x.2 == k) = false := by
        rw [beq_eq_false_iff_ne]
        intro he
        exact hk (he ▸ hx)
      rw [List.filter_cons_of_neg (by simp [hne]), ih seen hk]
    · rw [if_neg hx]
      by_cases he : candKey x.2 = k
      · have hbe : (candKey x.2 == k) = true := beq_iff_eq.mpr he
        rw [List.filter_cons_of_pos (by simp [hbe]),
          List.filter_cons_of_pos (by simp [hbe])]
        rw [dedupGo_filter_of_mem rest _ (by simp [he])]
        simp
      · have hne : (candKey x.2 == k) = false := beq_eq_false_iff_ne.mpr he
        rw [List.filter_cons_of_neg (by simp [hne]),
          List.filter_cons_of_neg (by simp [hne])]
        exact ih _ (by simp [hk, Ne.symm he, he])

theorem rLex_refl (a : Nat × Candidate) : rLex a a := by unfold rLex; omega

/-- **C3.** After ranking, deduplication keeps exactly one candidate per
key (serverIdentity, networkScope, protocol): whenever at least one
candidate carries key `k`, exactly one survives, and it is the one with
the lowest `connSortScore` of its host among that group, ties broken by
discovery order (the sort is stable).  Moreover the key does not include
the port (or the host): any two candidates agreeing on server identity,
scope flag and protocol have equal keys. -/
theorem connection_dedup_keeps_unique_best (cands : List Candidate) (k : JStr)
    (hk : ∃ x ∈ cands.enum, candKey x.2 = k) :
    (∃ e, (rankAndDedup cands).filter (fun x => candKey x.2 == k) = [e]
      ∧ e ∈ cands.enum ∧ candKey e.2 = k
      ∧ ∀ x ∈ cands.enum, candKey x.2 = k →
          connSortScore e.2.host < connSortScore x.2.host
            ∨ (connSortScore e.2.host = connSortScore x.2.host ∧ e.1 ≤ x.1))
    ∧ ∀ a b : Candidate, a.server.clientIdentifier = b.server.clientIdentifier →
        a.conn.localFlag = b.conn.localFlag → a.protocol = b.protocol →
        candKey a = candKey b := by
  constructor
  · obtain ⟨x0, hx0mem, hx0key⟩ := hk
    have hperm : (rankCandidates cands).Perm cands.enum :=
      List.perm_insertionSort _ _
    have hpermF := hperm.filter (fun x => candKey x.2 == k)
    have hsorted : List.Sorted rLex (rankCandidates cands) :=
      List.sorted_insertionSort rLex _
    have hsortedF :
        List.Sorted rLex
          ((rankCandidates cands).filter (fun x => candKey x.2 == k)) :=
      List.Pairwise.filter _ hsorted
    have hx0F : x0 ∈ (rankCandidates cands).filter (fun x => candKey x.2 == k) :=
      hpermF.mem_iff.mpr (List.mem_filter.mpr ⟨hx0mem, beq_iff_eq.mpr hx0key⟩)
    cases hF : (rankCandidates cands).filter (fun x => candKey x.2 == k) with
    | nil => rw [hF] at hx0F; cases hx0F
    | cons e tail =>
      have heF : e ∈ (rankCandidates cands).filter (fun x => candKey x.2 == k) := by
        rw [hF]; exact List.mem_cons_self _ _
      have heMem := List.mem_filter.mp (hpermF.mem_iff.mp heF)
      refine ⟨e, ?_, heMem.1, beq_iff_eq.mp heMem.2, ?_⟩
      · unfold rankAndDedup
        rw [dedupGo_filter_of_not_mem (k := k) (rankCandidates cands) []
          (by simp), hF]
        simp
      · intro x hx hkey
        have hxF : x ∈ (rankCandidates cands).filter (fun y => candKey y.2 == k) :=
          hpermF.mem_iff.mpr (List.mem_filter.mpr ⟨hx, beq_iff_eq.mpr hkey⟩)
        rw [hF] at hxF
        rcases List.mem_cons.mp hxF with hxe | hxtail
        · subst hxe
          exact (rLex_refl x).imp id id
        · rw [hF] at hsortedF
          exact (List.sorted_cons.mp hsortedF).1 x hxtail
  · intro a b h1 h2 h3
    unfold candKey candScope
    rw [h1, h2, h3]

/-- Concrete candidates: two local https options for the same server, one
on a Docker-range 192.168.16.x host and one on a real-LAN 192.168.1.x
host (discovered later). -/
def demoConnA : RawConn :=
  { uri := "https://192-168-16-2.example.plex.direct:32400".toList,
    protocol := "https".toList, address := "192.168.16.2".toList,
    port := 32400, localFlag := true }

def demoConnB : RawConn :=
  { uri := "https://192-168-1-50.example.plex.direct:32400".toList,
    protocol := "https".toList, address := "192.168.1.50".toList,
    port := 32401, localFlag := true }

def demoServer : PlexResource :=
  { clientIdentifier := "srv1".toList, name := "Demo".toList,
    connections := [demoConnA, demoConnB] }

def demoCandA : Candidate :=
  { server := demoServer, conn := demoConnA,
    host := "192-168-16-2.example.plex.direct".toList, port := 32400,
    protocol := "https".toList }

def demoCandB : Candidate :=
  { server := demoServer, conn := demoConnB,
    host := "192-168-1-50.example.plex.direct".toList, port := 32401,
    protocol := "https".toList }

/-- Witness for C3: two candidates share the key, exactly one (best)
survives deduplication. -/
theorem connection_dedup_keeps_unique_best_witness :
    (∃ x ∈ ([demoCandA, demoCandB]).enum, candKey x.2 = candKey demoCandA)
    ∧ ((∃ e, (rankAndDedup [demoCandA, demoCandB]).filter
          (fun x => candKey x.2 == candKey demoCandA) = [e]
        ∧ e ∈ ([demoCandA, demoCandB]).enum ∧ candKey e.2 = candKey demoCandA
        ∧ ∀ x ∈ ([demoCandA, demoCandB]).enum, candKey x.2 = candKey demoCandA →
            connSortScore e.2.host < connSortScore x.2.host
              ∨ (connSortScore e.2.host = connSortScore x.2.host ∧ e.1 ≤ x.1))
      ∧ ∀ a b : Candidate, a.server.clientIdentifier = b.server.clientIdentifier →
          a.conn.localFlag = b.conn.localFlag → a.protocol = b.protocol →
          candKey a = candKey b) :=
  ⟨by decide,
   connection_dedup_keeps_unique_best [demoCandA, demoCandB]
     (candKey demoCandA) (by decide)⟩

/-- A dash-encoded host is never a bare numeric IPv4 (it has a dash right
after the first digit run). -/
theorem isRawIpv4_of_dashDecode {host ip : JStr}
    (h : dashDecode host = some ip) : isRawIpv4 host = false := by
  unfold dashDecode at h
  split at h
  · exact absurd h (by simp)
  next g1 r1 h1 =>
  unfold parseGroupDash at h1
  split at h1
  · next g' r' heq =>
    cases h1
    unfold isRawIpv4
    rw [heq]
    rfl
  · exact absurd h1 (by simp)

/-- Local https connections used by the C4 scenario: one whose hostname
dash-encodes the Docker-bridge address 172.17.0.5, one whose hostname
dash-encodes 10.0.0.5. -/
def conn172 : RawConn :=
  { uri := "https://172-17-0-5.example.plex.direct:32400".toList,
    protocol := "https".toList, address := "172.17.0.5".toList,
    port := 32400, localFlag := true }

def conn10 : RawConn :=
  { uri := "https://10-0-0-5.example.plex.direct:32400".toList,
    protocol := "https".toList, address := "10.0.0.5".toList,
    port := 32400, localFlag := true }

def recServer : PlexResource :=
  { clientIdentifier := "srv2".toList, name := "Rec".toList,
    connections := [conn172, conn10] }

/-- **C4.** For every surviving local encrypted candidate whose hostname
dash-encodes an IPv4 address before the first dot, the resolver
synthesizes an additional unencrypted candidate at the decoded dotted
address; when the decoded address is noisy no candidate is synthesized
(the encrypted candidate itself is already discarded as noisy).
Concretely: a local https candidate at `172-17-0-5.example.plex.direct`
yields no synthesized candidate, while `10-0-0-5.example.plex.direct`
yields a synthesized unencrypted candidate at `10.0.0.5`. -/
theorem processConn_recovers_unencrypted (s : PlexResource) (c : RawConn)
    (ip : JStr)
    (hnoisy : isNoisyAddress (connHost c) = false)
    (hproto : c.protocol = "https".toList)
    (hlocal : c.localFlag = true)
    (hdash : dashDecode (connHost c) = some ip) :
    (processConn s c =
      [{ server := s, conn := c, host := connHost c, port := connPort c,
         protocol := c.protocol },
       { server := s, conn := c, host := ip, port := connPort c,
         protocol := "http".toList }])
    ∧ (∀ (s' : PlexResource) (c' : RawConn) (ip' : JStr),
        dashDecode (connHost c') = some ip' → isNoisyAddress ip' = true →
          processConn s' c' = [])
    ∧ processConn recServer conn172 = []
    ∧ processConn recServer conn10 =
      [{ server := recServer, conn := conn10,
         host := "10-0-0-5.example.plex.direct".toList, port := 32400,
         protocol := "https".toList },
       { server := recServer, conn := conn10, host := "10.0.0.5".toList,
         port := 32400, protocol := "http".toList }] := by
  refine ⟨?_, ?_, by decide, by decide⟩
  · have hraw : isRawIpv4 (connHost c) = false := isRawIpv4_of_dashDecode hdash
    have hipnoisy : isNoisyAddress ip = false := by
      rw [isNoisyAddress_eq, hdash] at hnoisy
      cases hcore : isNoisyCore (connHost c) <;> rw [hcore] at hnoisy
      · simpa using hnoisy
      · simp at hnoisy
    unfold processConn
    simp [hnoisy, hproto, hlocal, hdash, hraw, hipnoisy]
  · intro s' c' ip' hdash' hnoisy'
    have hhost : isNoisyAddress (connHost c') = true := by
      rw [isNoisyAddress_eq, hdash']
      show (isNoisyCore (connHost c') || isNoisyAddress ip') = true
      rw [hnoisy']
      simp
    unfold processConn
    simp [hhost]

/-- Witness for C4 at the `10-0-0-5.example.plex.direct` connection. -/
theorem processConn_recovers_unencrypted_witness :
    (isNoisyAddress (connHost conn10) = false
      ∧ conn10.protocol = "https".toList
      ∧ conn10.localFlag = true
      ∧ dashDecode (connHost conn10) = some "10.0.0.5".toList)
    ∧ ((processConn recServer conn10 =
        [{ server := recServer, conn := conn10, host := connHost conn10,
           port := connPort conn10, protocol := conn10.protocol },
         { server := recServer, conn := conn10, host := "10.0.0.5".toList,
           port := connPort conn10, protocol := "http".toList }])
      ∧ (∀ (s' : PlexResource) (c' : RawConn) (ip' : JStr),
          dashDecode (connHost c') = some ip' → isNoisyAddress ip' = true →
            processConn s' c' = [])
      ∧ processConn recServer conn172 = []
      ∧ processConn recServer conn10 =
        [{ server := recServer, conn := conn10,
           host := "10-0-0-5.example.plex.direct".toList, port := 32400,
           protocol := "https".toList },
         { server := recServer, conn := conn10, host := "10.0.0.5".toList,
           port := 32400, protocol := "http".toList }]) :=
  ⟨⟨by decide, by decide, by decide, by decide⟩,
   processConn_recovers_unencrypted recServer conn10 "10.0.0.5".toList
     (by decide) (by decide) (by decide) (by decide)⟩

-- ══════════════════════════════════════════════════════════════════════
-- encodeURIComponent / decodeURIComponent (ECMAScript built-ins)
-- ══════════════════════════════════════════════════════════════════════

theorem char_toNat_lt (c : Char) : c.toNat < 1114112 := by
  have h := c.valid
  unfold UInt32.isValidChar Nat.isValidChar at h
  have : c.toNat = c.val.toNat := rfl
  rcases h with h | ⟨h1, h2⟩ <;> omega

theorem char_not_surrogate (c : Char) :
    ¬(55296 ≤ c.toNat ∧ c.toNat < 57344) := by
  have h := c.valid
  unfold UInt32.isValidChar Nat.isValidChar at h
  have : c.toNat = c.val.toNat := rfl
  rcases h with h | ⟨h1, h2⟩ <;> omega

/-- The characters `encodeURIComponent` leaves unescaped:
`A–Z a–z 0–9 - _ . ! ~ * ' ( )` (written via their code points). -/
def unreservedChar (c : Char) : Bool :=
  (65 ≤ c.toNat && c.toNat ≤ 90) || (97 ≤ c.toNat && c.toNat ≤ 122)
    || (48 ≤ c.toNat && c.toNat ≤ 57)
    || c.toNat == 45 || c.toNat == 95 || c.toNat == 46 || c.toNat == 33
    || c.toNat == 126 || c.toNat == 42 || c.toNat == 39 || c.toNat == 40
    || c.toNat == 41

/-- Uppercase hex digit, as emitted by `encodeURIComponent`. -/
def hexDigitUpper (n : Nat) : Char :=
  if n < 10 then Char.ofNat (48 + n) else Char.ofNat (55 + n)

/-- `%XX` escape of one byte. -/
def pctByte (b : Nat) : JStr :=
  ['%', hexDigitUpper (b / 16), hexDigitUpper (b % 16)]

/-- UTF-8 bytes of one Unicode scalar value. -/
def utf8Bytes (c : Char) : List Nat :=
  if c.toNat < 128 then [c.toNat]
  else if c.toNat < 2048 then [192 + c.toNat / 64, 128 + c.toNat % 64]
  else if c.toNat < 65536 then
    [224 + c.toNat / 4096, 128 + c.toNat / 64 % 64, 128 + c.toNat % 64]
  else
    [240 + c.toNat / 262144, 128 + c.toNat / 4096 % 64,
     128 + c.toNat / 64 % 64, 128 + c.toNat % 64]

def utf8Encode (s : JStr) : List Nat := s.flatMap utf8Bytes

/-- `encodeURIComponent`: unreserved characters pass through, everything
else is percent-escaped byte-wise in UTF-8. -/
def encodeURIComponent (s : JStr) : JStr :=
  s.flatMap (fun c =>
    if unreservedChar c then [c] else (utf8Bytes c).flatMap pctByte)

def hexVal (c : Char) : Option Nat :=
  if 48 ≤ c.toNat && c.toNat ≤ 57 then some (c.toNat - 48)
  else if 65 ≤ c.toNat && c.toNat ≤ 70 then some (c.toNat - 55)
  else if 97 ≤ c.toNat && c.toNat ≤ 102 then some (c.toNat - 87)
  else none

/-- First phase of `decodeURIComponent`: translate `%XX` escapes into
bytes and literal characters into their UTF-8 bytes; `none` on a
malformed escape (a `URIError` in JS). -/
def pctDecodeBytes : JStr → Option (List Nat)
  | [] => some []
  | c :: rest =>
    if c == '%' then
      match rest with
      | h1 :: h2 :: rest2 =>
        match hexVal h1, hexVal h2 with
        | some a, some b =>
          (pctDecodeBytes rest2).map (fun t => (a * 16 + b) :: t)
        | _, _ => none
      | _ => none
    else (pctDecodeBytes rest).map (fun t => utf8Bytes c ++ t)

def isCont (b : Nat) : Bool := 128 ≤ b && b < 192

/-- Two-byte UTF-8 continuation: the byte after lead `b`. -/
def utf8Two (b : Nat) : List Nat → Option (Char × List Nat)
  | b2 :: rest2 =>
    if isCont b2 then
      some (Char.ofNat ((b - 192) * 64 + (b2 - 128)), rest2)
    else none
  | _ => none

/-- Three-byte UTF-8 continuation (with overlong and surrogate checks). -/
def utf8Three (b : Nat) : List Nat → Option (Char × List Nat)
  | b2 :: b3 :: rest3 =>
    if isCont b2 && isCont b3
        && decide (2048 ≤ (b - 224) * 4096 + (b2 - 128) * 64 + (b3 - 128))
        && !(decide (55296 ≤ (b - 224) * 4096 + (b2 - 128) * 64 + (b3 - 128))
             && decide ((b - 224) * 4096 + (b2 - 128) * 64 + (b3 - 128) < 57344))
    then some (Char.ofNat ((b - 224) * 4096 + (b2 - 128) * 64 + (b3 - 128)), rest3)
    else none
  | _ => none

/-- Four-byte UTF-8 continuation (with overlong and range checks). -/
def utf8Four (b : Nat) : List Nat → Option (Char × List Nat)
  | b2 :: b3 :: b4 :: rest4 =>
    if isCont b2 && isCont b3 && isCont b4
        && decide (65536 ≤ (b - 240) * 262144 + (b2 - 128) * 4096
                          + (b3 - 128) * 64 + (b4 - 128))
        && decide ((b - 240) * 262144 + (b2 - 128) * 4096
                   + (b3 - 128) * 64 + (b4 - 128) < 1114112)
    then some (Char.ofNat ((b - 240) * 262144 + (b2 - 128) * 4096
                           + (b3 - 128) * 64 + (b4 - 128)), rest4)
    else none
  | _ => none

/-- Decode one UTF-8 sequence: scalar value and remaining bytes, `none`
on a truncated sequence, stray continuation byte, overlong form or
surrogate. -/
def utf8DecodeStep (b : Nat) (rest : List Nat) : Option (Char × List Nat) :=
  if b < 128 then some (Char.ofNat b, rest)
  else if b < 194 then none
  else if b < 224 then utf8Two b rest
  else if b < 240 then utf8Three b rest
  else if b < 245 then utf8Four b rest
  else none

/-- Fueled driver for strict UTF-8 decoding (each step consumes at least
one byte, so fuel `bs.length` suffices; see `utf8Decode_eq`). -/
def utf8DecodeGo : Nat → List Nat → Option JStr
  | _, [] => some []
  | 0, _ :: _ => none
  | fuel + 1, b :: rest =>
    match utf8DecodeStep b rest with
    | some (c, rest2) => (utf8DecodeGo fuel rest2).map (fun t => c :: t)
    | none => none

/-- Strict UTF-8 decoding of a byte list into scalar values, as
`decodeURIComponent` performs on the escaped bytes. -/
def utf8Decode (bs : List Nat) : Option JStr :=
  utf8DecodeGo bs.length bs

theorem utf8DecodeStep_length {b : Nat} {rest rest2 : List Nat} {c : Char}
    (h : utf8DecodeStep b rest = some (c, rest2)) :
    rest2.length ≤ rest.length := by
  unfold utf8DecodeStep at h
  split at h
  · cases h; exact le_refl _
  split at h
  · cases h
  split at h
  · unfold utf8Two at h
    split at h
    · split at h
      · cases h; simp only [List.length_cons]; omega
      · cases h
    · cases h
  split at h
  · unfold utf8Three at h
    split at h
    · split at h
      · cases h; simp only [List.length_cons]; omega
      · cases h
    · cases h
  split at h
  · unfold utf8Four at h
    split at h
    · split at h
      · cases h; simp only [List.length_cons]; omega
      · cases h
    · cases h
  cases h

theorem utf8DecodeGo_fuel :
    ∀ {f : Nat} (g : Nat) (bs : List Nat), bs.length ≤ f → bs.length ≤ g →
      utf8DecodeGo f bs = utf8DecodeGo g bs := by
  intro f
  induction f with
  | zero =>
    intro g bs hf _
    have : bs = [] := List.length_eq_zero.mp (Nat.le_zero.mp hf)
    subst this
    cases g <;> rfl
  | succ f ih =>
    intro g bs hf hg
    cases bs with
    | nil => cases g <;> rfl
    | cons b rest =>
      cases g with
      | zero => simp at hg
      | succ g =>
        show (match utf8DecodeStep b rest with
              | some (c, rest2) => (utf8DecodeGo f rest2).map (fun t => c :: t)
              | none => none)
          = (match utf8DecodeStep b rest with
              | some (c, rest2) => (utf8DecodeGo g rest2).map (fun t => c :: t)
              | none => none)
        cases hstep : utf8DecodeStep b rest with
        | none => rfl
        | some p =>
          obtain ⟨c, rest2⟩ := p
          have hlen := utf8DecodeStep_length hstep
          simp only [List.length_cons] at hf hg
          show (utf8DecodeGo f rest2).map (fun t => c :: t)
            = (utf8DecodeGo g rest2).map (fun t => c :: t)
          rw [ih g rest2 (by omega) (by omega)]

/-- The defining equation of the strict UTF-8 decoder. -/
theorem utf8Decode_eq (b : Nat) (rest : List Nat) :
    utf8Decode (b :: rest)
      = match utf8DecodeStep b rest with
        | some (c, rest2) => (utf8Decode rest2).map (fun t => c :: t)
        | none => none := by
  show utf8DecodeGo (b :: rest).length (b :: rest) = _
  simp only [List.length_cons]
  show (match utf8DecodeStep b rest with
        | some (c, rest2) => (utf8DecodeGo rest.length rest2).map (fun t => c :: t)
        | none => none) = _
  cases hstep : utf8DecodeStep b rest with
  | none => rfl
  | some p =>
    obtain ⟨c, rest2⟩ := p
    have hlen := utf8DecodeStep_length hstep
    show (utf8DecodeGo rest.length rest2).map (fun t => c :: t)
      = (utf8Decode rest2).map (fun t => c :: t)
    unfold utf8Decode
    rw [utf8DecodeGo_fuel (f := rest.length) rest2.length rest2 (by omega)
      (le_refl _)]

/-- `decodeURIComponent` (returning `none` where JS throws `URIError`). -/
def decodeURIComponent (s : JStr) : Option JStr :=
  (pctDecodeBytes s).bind utf8Decode

theorem hexVal_hexDigitUpper {n : Nat} (h : n < 16) :
    hexVal (hexDigitUpper n) = some n := by
  interval_cases n <;> decide

theorem pctDecodeBytes_cons_lit {c : Char} (hc : (c == '%') = false)
    (rest : JStr) :
    pctDecodeBytes (c :: rest)
      = (pctDecodeBytes rest).map (fun t => utf8Bytes c ++ t) := by
  rcases rest with _ | ⟨h1, _ | ⟨h2, rest2⟩⟩
  · rw [pctDecodeBytes.eq_3 _ _ (by intro _ _ _ h; cases h),
      if_neg (by simp [hc])]
  · rw [pctDecodeBytes.eq_3 _ _ (by intro _ _ _ h; simp at h),
      if_neg (by simp [hc])]
  · rw [pctDecodeBytes.eq_2, if_neg (by simp [hc])]

theorem pctDecodeBytes_pct {b : Nat} (hb : b < 256) (rest : JStr) :
    pctDecodeBytes (pctByte b ++ rest)
      = (pctDecodeBytes rest).map (fun t => b :: t) := by
  show pctDecodeBytes
    ('%' :: hexDigitUpper (b / 16) :: hexDigitUpper (b % 16) :: rest) = _
  rw [pctDecodeBytes.eq_2, if_pos (by decide : ('%' == '%') = true),
    hexVal_hexDigitUpper (by omega), hexVal_hexDigitUpper (by omega)]
  show Option.map (fun t => (b / 16 * 16 + b % 16) :: t) (pctDecodeBytes rest) = _
  rw [show b / 16 * 16 + b % 16 = b from by omega]

theorem pctDecodeBytes_pctList {bs : List Nat} (hbs : ∀ b ∈ bs, b < 256)
    (rest : JStr) :
    pctDecodeBytes (bs.flatMap pctByte ++ rest)
      = (pctDecodeBytes rest).map (fun t => bs ++ t) := by
  induction bs with
  | nil => simp
  | cons b bs ih =>
    have hb : b < 256 := hbs b (by simp)
    rw [List.flatMap_cons, List.append_assoc,
      pctDecodeBytes_pct hb, ih (fun x hx => hbs x (by simp [hx]))]
    rw [Option.map_map]
    rfl

theorem unreserved_ascii {c : Char} (hc : unreservedChar c = true) :
    c.toNat < 128 := by
  unfold unreservedChar at hc
  simp only [Bool.or_eq_true, Bool.and_eq_true, decide_eq_true_eq,
    beq_iff_eq] at hc
  omega

theorem unreserved_not_pct {c : Char} (hc : unreservedChar c = true) :
    (c == '%') = false := by
  rw [beq_eq_false_iff_ne]
  intro he
  subst he
  exact absurd hc (by decide)

theorem utf8Bytes_lt (c : Char) : ∀ b ∈ utf8Bytes c, b < 256 := by
  have hv := char_toNat_lt c
  unfold utf8Bytes
  by_cases h1 : c.toNat < 128
  · rw [if_pos h1]; intro b hb; simp at hb; omega
  · rw [if_neg h1]
    by_cases h2 : c.toNat < 2048
    · rw [if_pos h2]; intro b hb; simp at hb; rcases hb with h | h <;> omega
    · rw [if_neg h2]
      by_cases h3 : c.toNat < 65536
      · rw [if_pos h3]; intro b hb; simp at hb
        rcases hb with h | h | h <;> omega
      · rw [if_neg h3]; intro b hb; simp at hb
        rcases hb with h | h | h | h <;> omega

theorem pctDecodeBytes_encode (s : JStr) :
    pctDecodeBytes (encodeURIComponent s) = some (utf8Encode s) := by
  induction s with
  | nil => rfl
  | cons c s ih =>
    show pctDecodeBytes
        ((if unreservedChar c then [c] else (utf8Bytes c).flatMap pctByte)
          ++ encodeURIComponent s)
      = some (utf8Bytes c ++ utf8Encode s)
    by_cases hc : unreservedChar c = true
    · rw [if_pos hc, List.singleton_append,
        pctDecodeBytes_cons_lit (unreserved_not_pct hc), ih]
      rfl
    · rw [if_neg hc, pctDecodeBytes_pctList (utf8Bytes_lt c), ih]
      rfl

theorem utf8DecodeStep_enc (c : Char) (bs : List Nat) :
    ∃ b rest, utf8Bytes c ++ bs = b :: rest
      ∧ utf8DecodeStep b rest = some (c, bs) := by
  have hv := char_toNat_lt c
  have hs := char_not_surrogate c
  by_cases h1 : c.toNat < 128
  · refine ⟨c.toNat, bs, by rw [utf8Bytes, if_pos h1]; rfl, ?_⟩
    unfold utf8DecodeStep
    rw [if_pos h1, Char.ofNat_toNat]
  · by_cases h2 : c.toNat < 2048
    · refine ⟨192 + c.toNat / 64, (128 + c.toNat % 64) :: bs,
        by rw [utf8Bytes, if_neg h1, if_pos h2]; rfl, ?_⟩
      unfold utf8DecodeStep
      rw [if_neg (by omega), if_neg (by omega), if_pos (by omega)]
      simp only [utf8Two]
      rw [if_pos (by
        simp only [isCont, Bool.and_eq_true, decide_eq_true_eq]
        omega)]
      rw [show (192 + c.toNat / 64 - 192) * 64 + (128 + c.toNat % 64 - 128)
          = c.toNat from by omega, Char.ofNat_toNat]
    · by_cases h3 : c.toNat < 65536
      · refine ⟨224 + c.toNat / 4096,
          (128 + c.toNat / 64 % 64) :: (128 + c.toNat % 64) :: bs,
          by rw [utf8Bytes, if_neg h1, if_neg h2, if_pos h3]; rfl, ?_⟩
        unfold utf8DecodeStep
        rw [if_neg (by omega), if_neg (by omega), if_neg (by omega),
          if_pos (by omega)]
        simp only [utf8Three]
        rw [show (224 + c.toNat / 4096 - 224) * 4096
              + (128 + c.toNat / 64 % 64 - 128) * 64
              + (128 + c.toNat % 64 - 128) = c.toNat from by omega]
        rw [if_pos (by
          simp only [isCont, Bool.and_eq_true, Bool.not_eq_true',
            Bool.and_eq_false_iff, decide_eq_true_eq, decide_eq_false_iff_not]
          omega)]
        rw [Char.ofNat_toNat]
      · refine ⟨240 + c.toNat / 262144,
          (128 + c.toNat / 4096 % 64) :: (128 + c.toNat / 64 % 64)
            :: (128 + c.toNat % 64) :: bs,
          by rw [utf8Bytes, if_neg h1, if_neg h2, if_neg h3]; rfl, ?_⟩
        unfold utf8DecodeStep
        rw [if_neg (by omega), if_neg (by omega), if_neg (by omega),
          if_neg (by omega), if_pos (by omega)]
        simp only [utf8Four]
        rw [show (240 + c.toNat / 262144 - 240) * 262144
              + (128 + c.toNat / 4096 % 64 - 128) * 4096
              + (128 + c.toNat / 64 % 64 - 128) * 64
              + (128 + c.toNat % 64 - 128) = c.toNat from by omega]
        rw [if_pos (by
          simp only [isCont, Bool.and_eq_true, decide_eq_true_eq]
          omega)]
        rw [Char.ofNat_toNat]

theorem utf8Decode_encStep (c : Char) (bs : List Nat) :
    utf8Decode (utf8Bytes c ++ bs) = (utf8Decode bs).map (fun t => c :: t) := by
  obtain ⟨b, rest, he, hstep⟩ := utf8DecodeStep_enc c bs
  rw [he, utf8Decode_eq, hstep]

theorem utf8Decode_utf8Encode (s : JStr) :
    utf8Decode (utf8Encode s) = some s := by
  induction s with
  | nil => rfl
  | cons c s ih =>
    show utf8Decode (utf8Bytes c ++ utf8Encode s) = _
    rw [utf8Decode_encStep, ih]
    rfl

/-- `decodeURIComponent` inverts `encodeURIComponent`. -/
theorem decodeURIComponent_encodeURIComponent (s : JStr) :
    decodeURIComponent (encodeURIComponent s) = some s := by
  unfold decodeURIComponent
  rw [pctDecodeBytes_encode]
  show utf8Decode (utf8Encode s) = some s
  exact utf8Decode_utf8Encode s

-- ══════════════════════════════════════════════════════════════════════
-- Token segment encoding (`dist` uri-utils and `src/volumio/uri-utils.ts`)
-- ══════════════════════════════════════════════════════════════════════

/-- `encodePathSegment` of the dist uri-utils: percent-encoding. -/
def encodePathSegment (key : JStr) : JStr := encodeURIComponent key

/-- `encoded.replace(/__/g, "/")`: leftmost non-overlapping double
underscores become slashes. -/
def repUnd : JStr → JStr
  | [] => []
  | [c] => [c]
  | c1 :: c2 :: rest =>
    if c1 = '_' ∧ c2 = '_' then '/' :: repUnd rest
    else c1 :: repUnd (c2 :: rest)

/-- `decodePathSegment` of the dist uri-utils: a segment starting with
`%` is percent-decoded, anything else is treated as a legacy
`__`-for-slash segment (`none` models a `URIError` from
`decodeURIComponent`). -/
def decodePathSegment (encoded : JStr) : Option JStr :=
  if jsStartsWith "%".toList encoded then decodeURIComponent encoded
  else some (repUnd encoded)

/-- `encodePathSegment` of the older `src/volumio/uri-utils.ts`:
`key.replace(/\//g, "__")`. -/
def encodePathSegmentLegacy : JStr → JStr
  | [] => []
  | c :: rest =>
    if c = '/' then '_' :: '_' :: encodePathSegmentLegacy rest
    else c :: encodePathSegmentLegacy rest

theorem encodeURIComponent_slash_cons (k : JStr) :
    encodeURIComponent ('/' :: k) = '%' :: '2' :: 'F' :: encodeURIComponent k := by
  show (if unreservedChar '/' then ['/'] else (utf8Bytes '/').flatMap pctByte)
      ++ encodeURIComponent k = _
  rw [show (if unreservedChar '/' then ['/']
      else (utf8Bytes '/').flatMap pctByte) = ['%', '2', 'F'] from by decide]
  rfl

theorem encodePathSegmentLegacy_nil {k : JStr}
    (h : encodePathSegmentLegacy k = []) : k = [] := by
  cases k with
  | nil => rfl
  | cons c rest =>
    unfold encodePathSegmentLegacy at h
    by_cases hc : c = '/'
    · rw [if_pos hc] at h; cases h
    · rw [if_neg hc] at h; cases h

theorem encodePathSegmentLegacy_head_underscore {k : JStr} {d : Char}
    {X : JStr} (h : encodePathSegmentLegacy k = d :: X) (hd : d = '_') :
    (∃ r, k = '/' :: r) ∨ (∃ r, k = '_' :: r) := by
  cases k with
  | nil => cases h
  | cons c rest =>
    unfold encodePathSegmentLegacy at h
    by_cases hc : c = '/'
    · exact Or.inl ⟨rest, by rw [hc]⟩
    · rw [if_neg hc] at h
      have : c = d := (List.cons.injEq _ _ _ _ ▸ h).1
      exact Or.inr ⟨rest, by rw [this, hd]⟩

theorem repUnd_encodePathSegmentLegacy (k : JStr)
    (h1 : jsIncludes "__".toList k = false)
    (h2 : jsIncludes "_/".toList k = false) :
    repUnd (encodePathSegmentLegacy k) = k := by
  induction k with
  | nil => rfl
  | cons c rest ih =>
    have h1' : ("__".toList.isPrefixOf (c :: rest) = false)
        ∧ jsIncludes "__".toList rest = false := by
      have := h1
      unfold jsIncludes at this
      exact Bool.or_eq_false_iff.mp this
    have h2' : ("_/".toList.isPrefixOf (c :: rest) = false)
        ∧ jsIncludes "_/".toList rest = false := by
      have := h2
      unfold jsIncludes at this
      exact Bool.or_eq_false_iff.mp this
    by_cases hc : c = '/'
    · subst hc
      show repUnd (if ('/' : Char) = '/' then '_' :: '_' :: encodePathSegmentLegacy rest
          else '/' :: encodePathSegmentLegacy rest) = _
      rw [if_pos rfl]
      show (if ('_' = '_' ∧ '_' = '_') then '/' :: repUnd (encodePathSegmentLegacy rest)
          else '_' :: repUnd ('_' :: encodePathSegmentLegacy rest)) = _
      rw [if_pos ⟨rfl, rfl⟩, ih h1'.2 h2'.2]
    · show repUnd (if c = '/' then '_' :: '_' :: encodePathSegmentLegacy rest
          else c :: encodePathSegmentLegacy rest) = _
      rw [if_neg hc]
      cases hE : encodePathSegmentLegacy rest with
      | nil =>
        rw [encodePathSegmentLegacy_nil hE]
        rfl
      | cons d X =>
        have hnd : ¬(c = '_' ∧ d = '_') := by
          rintro ⟨hcu, hdu⟩
          rcases encodePathSegmentLegacy_head_underscore hE hdu with ⟨r, hr⟩ | ⟨r, hr⟩
          · subst hr; subst hcu
            exact absurd h2'.1 (by simp [List.isPrefixOf])
          · subst hr; subst hcu
            exact absurd h1'.1 (by simp [List.isPrefixOf])
        show (if (c = '_' ∧ d = '_') then '/' :: repUnd X
            else c :: repUnd (d :: X)) = c :: rest
        rw [if_neg hnd, ← hE, ih h1'.2 h2'.2]

/-- Helper: a key that starts with the root path character. -/
theorem startsWith_slash_split {k : JStr}
    (hk : jsStartsWith "/".toList k = true) : ∃ r, k = '/' :: r := by
  cases k with
  | nil => exact absurd hk (by decide)
  | cons c rest =>
    simp [jsStartsWith, List.isPrefixOf] at hk
    exact ⟨rest, by simp [hk.symm]⟩

/-- **C7 (amended).** The two coexisting token-segment schemes of the
dist uri-utils: (1) percent round-trip — for every location key (a key
beginning with the root path character `/`), decoding the freshly encoded
segment returns the key; (2) legacy round-trip — a
double-underscore-encoded segment of a `/`-initial key decodes back to
the key provided the key contains neither `__` nor `_/` (the legacy
scheme is lossy on such keys, see the counterexample); (3) newly emitted
segments use the percent-encoded form (`encodePathSegment` is
`encodeURIComponent`). -/
theorem pathSegment_token_schemes (k : JStr) :
    (jsStartsWith "/".toList k = true →
      decodePathSegment (encodePathSegment k) = some k)
    ∧ (jsStartsWith "/".toList k = true →
      jsIncludes "__".toList k = false → jsIncludes "_/".toList k = false →
      decodePathSegment (encodePathSegmentLegacy k) = some k)
    ∧ encodePathSegment k = encodeURIComponent k := by
  refine ⟨?_, ?_, rfl⟩
  · intro hk
    obtain ⟨r, hr⟩ := startsWith_slash_split hk
    subst hr
    unfold decodePathSegment encodePathSegment
    rw [encodeURIComponent_slash_cons,
      if_pos (by simp [jsStartsWith, List.isPrefixOf]),
      ← encodeURIComponent_slash_cons]
    exact decodeURIComponent_encodeURIComponent _
  · intro hk h1 h2
    obtain ⟨r, hr⟩ := startsWith_slash_split hk
    subst hr
    have hE : encodePathSegmentLegacy ('/' :: r)
        = '_' :: '_' :: encodePathSegmentLegacy r := by
      show (if ('/' : Char) = '/' then '_' :: '_' :: encodePathSegmentLegacy r
          else '/' :: encodePathSegmentLegacy r) = _
      rw [if_pos rfl]
    unfold decodePathSegment
    rw [hE, if_neg (by simp [jsStartsWith, List.isPrefixOf]), ← hE,
      repUnd_encodePathSegmentLegacy _ h1 h2]

/-- Witness for C7 at the real Plex key `/library/metadata/1001/children`. -/
theorem pathSegment_token_schemes_witness :
    (jsStartsWith "/".toList "/library/metadata/1001/children".toList = true
      ∧ jsIncludes "__".toList "/library/metadata/1001/children".toList = false
      ∧ jsIncludes "_/".toList "/library/metadata/1001/children".toList = false)
    ∧ decodePathSegment (encodePathSegment "/library/metadata/1001/children".toList)
        = some "/library/metadata/1001/children".toList
    ∧ decodePathSegment
        (encodePathSegmentLegacy "/library/metadata/1001/children".toList)
        = some "/library/metadata/1001/children".toList :=
  ⟨by decide,
   (pathSegment_token_schemes "/library/metadata/1001/children".toList).1
     (by decide),
   (pathSegment_token_schemes "/library/metadata/1001/children".toList).2.1
     (by decide) (by decide) (by decide)⟩

/-- C7 counterexample: the legacy scheme is not a round-trip for every
`/`-initial key — the key `/a__b` legacy-encodes to `__a__b`, which
decodes to `/a/b`, not back to `/a__b`. -/
theorem decodePathSegment_legacy_not_inverse :
    jsStartsWith "/".toList "/a__b".toList = true
    ∧ encodePathSegmentLegacy "/a__b".toList = "__a__b".toList
    ∧ decodePathSegment (encodePathSegmentLegacy "/a__b".toList)
        = some "/a/b".toList
    ∧ some "/a/b".toList ≠ some "/a__b".toList := by decide

-- ══════════════════════════════════════════════════════════════════════
-- StreamAddressBuilder (dist stream resolver; plus the stale copy in
-- `src/core/stream-resolver.ts`)
-- ══════════════════════════════════════════════════════════════════════

/-- Connection details needed to build any Plex URL (the `https?` flag
resolved to its default `false` where absent). -/
structure PlexConnection where
  host : JStr
  port : Nat
  token : JStr
  https : Bool
deriving DecidableEq

def natToJs (n : Nat) : JStr := (Nat.repr n).toList

/-- `buildResourceUrl` of the dist stream resolver:
`${scheme}://${host}:${port}${path}${sep}X-Plex-Token=${encodeURIComponent(token)}`
with `sep = path.includes("?") ? "&" : "?"`. -/
def buildResourceUrl (conn : PlexConnection) (path : JStr) : JStr :=
  (if conn.https then "https".toList else "http".toList) ++ "://".toList
    ++ conn.host ++ ':' :: natToJs conn.port ++ path
    ++ (if jsIncludes "?".toList path then "&".toList else "?".toList)
    ++ "X-Plex-Token=".toList ++ encodeURIComponent conn.token

/-- `buildDirectUrl` of the dist stream resolver. -/
def buildDirectUrl (base token trackKey : JStr) : JStr :=
  base ++ trackKey
    ++ (if jsIncludes "?".toList trackKey then "&".toList else "?".toList)
    ++ "X-Plex-Token=".toList ++ encodeURIComponent token

/-- The characters the `URLSearchParams` serializer leaves unescaped
(`application/x-www-form-urlencoded`: alphanumeric and `* - . _`). -/
def formUnreservedChar (c : Char) : Bool :=
  (65 ≤ c.toNat && c.toNat ≤ 90) || (97 ≤ c.toNat && c.toNat ≤ 122)
    || (48 ≤ c.toNat && c.toNat ≤ 57)
    || c.toNat == 42 || c.toNat == 45 || c.toNat == 46 || c.toNat == 95

/-- `application/x-www-form-urlencoded` serialization of one value
(space becomes `+`, unreserved kept, everything else percent-escaped). -/
def formEncode (s : JStr) : JStr :=
  s.flatMap (fun c =>
    if c.toNat = 32 then ['+']
    else if formUnreservedChar c then [c]
    else (utf8Bytes c).flatMap pctByte)

/-- `buildTranscodeUrl` of the dist stream resolver: the
`URLSearchParams` serialize in insertion order (`path`, `mediaIndex`,
`partIndex`, `protocol`, `X-Plex-Token`, then the two `set` calls append
`container` and `audioCodec`); the codec map sends flac→flac/flac,
aac→mp4/aac and everything else (including mp3) to mp3/mp3. -/
def buildTranscodeUrl (base token trackKey format scheme : JStr) : JStr :=
  base ++ "/music/:/transcode/universal/start?path=".toList
    ++ formEncode trackKey
    ++ "&mediaIndex=0&partIndex=0&protocol=".toList ++ formEncode scheme
    ++ "&X-Plex-Token=".toList ++ formEncode token
    ++ "&container=".toList
    ++ formEncode (if format = "flac".toList then "flac".toList
        else if format = "aac".toList then "mp4".toList else "mp3".toList)
    ++ "&audioCodec=".toList
    ++ formEncode (if format = "flac".toList then "flac".toList
        else if format = "aac".toList then "aac".toList else "mp3".toList)

/-- `StreamOptions` (defaults resolved: `transcode = false`,
`format = "mp3"`, `https = false` where absent). -/
structure StreamOptions where
  host : JStr
  port : Nat
  token : JStr
  https : Bool
  trackKey : JStr
  transcode : Bool
  format : JStr
deriving DecidableEq

/-- `buildStreamUrl` of the dist stream resolver. -/
def buildStreamUrl (o : StreamOptions) : JStr :=
  if o.transcode then
    buildTranscodeUrl
      ((if o.https then "https".toList else "http".toList) ++ "://".toList
        ++ o.host ++ ':' :: natToJs o.port)
      o.token o.trackKey o.format
      (if o.https then "https".toList else "http".toList)
  else
    buildDirectUrl
      ((if o.https then "https".toList else "http".toList) ++ "://".toList
        ++ o.host ++ ':' :: natToJs o.port)
      o.token o.trackKey

/-- `buildResourceUrl` as in the (stale) `src/core/stream-resolver.ts`,
which appends the token with `?` unconditionally. -/
def buildResourceUrlTs (conn : PlexConnection) (path : JStr) : JStr :=
  (if conn.https then "https".toList else "http".toList) ++ "://".toList
    ++ conn.host ++ ':' :: natToJs conn.port ++ path
    ++ "?X-Plex-Token=".toList ++ encodeURIComponent conn.token

/-- `buildDirectUrl` as in the (stale) `src/core/stream-resolver.ts`. -/
def buildDirectUrlTs (base token trackKey : JStr) : JStr :=
  base ++ trackKey ++ "?X-Plex-Token=".toList ++ encodeURIComponent token

/-- **C1.** In the shipped (dist) resolver, `buildStreamUrl` in
passthrough mode and `buildResourceUrl` append the authentication token
with `&` when the path already contains a `?`, and with `?` when it does
not, and in both cases the token value appears percent-encoded
(`encodeURIComponent`) in the produced URL. -/
theorem stream_url_token_separator (conn : PlexConnection) (o : StreamOptions)
    (path : JStr) (hpass : o.transcode = false) :
    (jsIncludes "?".toList path = true →
      buildResourceUrl conn path
        = (if conn.https then "https".toList else "http".toList) ++ "://".toList
            ++ conn.host ++ ':' :: natToJs conn.port ++ path
            ++ "&X-Plex-Token=".toList ++ encodeURIComponent conn.token)
    ∧ (jsIncludes "?".toList path = false →
      buildResourceUrl conn path
        = (if conn.https then "https".toList else "http".toList) ++ "://".toList
            ++ conn.host ++ ':' :: natToJs conn.port ++ path
            ++ "?X-Plex-Token=".toList ++ encodeURIComponent conn.token)
    ∧ (jsIncludes "?".toList o.trackKey = true →
      buildStreamUrl o
        = (if o.https then "https".toList else "http".toList) ++ "://".toList
            ++ o.host ++ ':' :: natToJs o.port ++ o.trackKey
            ++ "&X-Plex-Token=".toList ++ encodeURIComponent o.token)
    ∧ (jsIncludes "?".toList o.trackKey = false →
      buildStreamUrl o
        = (if o.https then "https".toList else "http".toList) ++ "://".toList
            ++ o.host ++ ':' :: natToJs o.port ++ o.trackKey
            ++ "?X-Plex-Token=".toList ++ encodeURIComponent o.token) := by
  refine ⟨?_, ?_, ?_, ?_⟩ <;> intro h
  · have h' : jsIncludes ['?'] path = true := by simpa using h
    simp [buildResourceUrl, h', List.append_assoc]
  · have h' : jsIncludes ['?'] path = false := by simpa using h
    simp [buildResourceUrl, h', List.append_assoc]
  · have h' : jsIncludes ['?'] o.trackKey = true := by simpa using h
    simp [buildStreamUrl, buildDirectUrl, hpass, h', List.append_assoc]
  · have h' : jsIncludes ['?'] o.trackKey = false := by simpa using h
    simp [buildStreamUrl, buildDirectUrl, hpass, h', List.append_assoc]

/-- Witness for C1: a track key carrying a query string gets `&`, a bare
artwork path gets `?`. -/
theorem stream_url_token_separator_witness :
    (({ host := "192.168.1.50".toList, port := 32400,
        token := "se cret=1&x".toList, https := false, trackKey := "/k?x=1".toList,
        transcode := false, format := "mp3".toList } : StreamOptions).transcode
      = false)
    ∧ jsIncludes "?".toList "/k?x=1".toList = true
    ∧ jsIncludes "?".toList "/library/metadata/1001/thumb/1".toList = false
    ∧ buildStreamUrl
        { host := "192.168.1.50".toList, port := 32400,
          token := "se cret=1&x".toList, https := false,
          trackKey := "/k?x=1".toList, transcode := false,
          format := "mp3".toList }
        = "http://192.168.1.50:32400/k?x=1&X-Plex-Token=se%20cret%3D1%26x".toList
    ∧ buildResourceUrl
        { host := "192.168.1.50".toList, port := 32400,
          token := "se cret=1&x".toList, https := false }
        "/library/metadata/1001/thumb/1".toList
        = "http://192.168.1.50:32400/library/metadata/1001/thumb/1?X-Plex-Token=se%20cret%3D1%26x".toList := by
  refine ⟨by decide, by decide, by decide, ?_, ?_⟩
  · rw [(stream_url_token_separator
      { host := "192.168.1.50".toList, port := 32400,
        token := "se cret=1&x".toList, https := false }
      { host := "192.168.1.50".toList, port := 32400,
        token := "se cret=1&x".toList, https := false,
        trackKey := "/k?x=1".toList, transcode := false,
        format := "mp3".toList }
      "/library/metadata/1001/thumb/1".toList (by decide)).2.2.1 (by decide)]
    decide
  · rw [(stream_url_token_separator
      { host := "192.168.1.50".toList, port := 32400,
        token := "se cret=1&x".toList, https := false }
      { host := "192.168.1.50".toList, port := 32400,
        token := "se cret=1&x".toList, https := false,
        trackKey := "/k?x=1".toList, transcode := false,
        format := "mp3".toList }
      "/library/metadata/1001/thumb/1".toList (by decide)).2.1 (by decide)]
    decide

/-- Divergence note (not itself one of the checked claims): the stale
TypeScript copy of the resolver appends the token with `?` even when the
path already carries a query string, unlike the shipped dist code. -/
theorem buildDirectUrlTs_always_question :
    buildDirectUrlTs "http://h:1".toList "t".toList "/k?x=1".toList
      = "http://h:1/k?x=1?X-Plex-Token=t".toList := by decide

-- ══════════════════════════════════════════════════════════════════════
-- BrowseNavigator (`src/volumio/browse-handlers.ts` and uri-utils
-- pagination; fetched data passed explicitly)
-- ══════════════════════════════════════════════════════════════════════

structure Library where
  id : JStr
  title : JStr
  type : JStr
deriving DecidableEq

structure Artist where
  title : JStr
  artworkUrl : Option JStr
  albumsKey : JStr
deriving DecidableEq

structure Album where
  title : JStr
  artist : JStr
  artworkUrl : Option JStr
  trackListKey : JStr
deriving DecidableEq

/-- `PaginationState` (with the sort directive of the current
browse-handlers source). -/
structure PaginationState where
  libraryKey : Option JStr
  offset : Int
  sort : Option JStr
deriving DecidableEq

structure BrowseOptions where
  pageSize : Int
  shuffleEnabled : Bool
deriving DecidableEq

structure PaginatedResult (α : Type) where
  items : List α
  totalSize : Int
  offset : Int
deriving DecidableEq

/-- One Volumio navigation list item (fields used by the browse
handlers; absent JS object fields are `none`). -/
structure NavItem where
  service : JStr
  type : JStr
  title : JStr
  uri : JStr
  icon : Option JStr
  albumart : Option JStr
  artist : Option JStr
deriving DecidableEq

def intToJs (i : Int) : JStr := (toString i).toList

/-- `Array.prototype.findIndex` (−1 when absent). -/
def jsFindIndex {α : Type} (p : α → Bool) (l : List α) : Int :=
  match List.findIdx? p l with
  | some i => (i : Int)
  | none => -1

/-- JS array indexing `l[i]` (undefined for out-of-range or negative). -/
def jsGetElem {α : Type} (l : List α) (i : Int) : Option α :=
  if i < 0 then none else l.get? i.toNat

/-- The cursor produced by `parsePaginationUri`. -/
structure CursorState where
  libraryKey : Option JStr
  offset : Int
deriving DecidableEq

/-- The sign-and-digits core of JS `parseInt(s, 10)` (the source's
cursor offsets are plain digit strings; `parseInt` additionally skips
leading whitespace, which cannot occur in these tokens). -/
def parseIntCore (s : JStr) : Option Int :=
  match s with
  | '-' :: rest =>
    if (rest.takeWhile Char.isDigit).isEmpty then none
    else some (-(digitsToNat (rest.takeWhile Char.isDigit) : Int))
  | '+' :: rest =>
    if (rest.takeWhile Char.isDigit).isEmpty then none
    else some (digitsToNat (rest.takeWhile Char.isDigit) : Int)
  | _ =>
    if (s.takeWhile Char.isDigit).isEmpty then none
    else some (digitsToNat (s.takeWhile Char.isDigit) : Int)

/-- `parseInt(s, 10) || 0` (`NaN` is falsy, so an unparsable offset
becomes 0). -/
def jsParseInt (s : JStr) : Int := (parseIntCore s).getD 0

/-- `parsePaginationUri` from the uri-utils: split at the first `@`,
then at the first `:`. -/
def parsePaginationUri (uri : JStr) : CursorState :=
  match List.findIdx? (fun x => x == '@') uri with
  | none => { libraryKey := none, offset := 0 }
  | some ai =>
    let pp := uri.drop (ai + 1)
    match List.findIdx? (fun x => x == ':') pp with
    | none => { libraryKey := some pp, offset := 0 }
    | some ci =>
      { libraryKey := some (pp.take ci), offset := jsParseInt (pp.drop (ci + 1)) }

/-- `plex/artists` plus the `~sort` part, as assembled by
`browseArtists` (`baseUri`). -/
def artistsBaseUri (sort : Option JStr) : JStr :=
  "plex/artists".toList ++ (match sort with | some s => '~' :: s | none => [])

/-- `plex/albums` plus the `~sort` part (`browseAlbums`). -/
def albumsBaseUri (sort : Option JStr) : JStr :=
  "plex/albums".toList ++ (match sort with | some s => '~' :: s | none => [])

/-- The `libraryKey` resolution at the top of `browseArtists` /
`browseAlbums`: a `null` cursor key falls back to the first library; a
missing or falsy (empty) first-library id aborts into the empty page. -/
def resolveLibraryKey (pagination : PaginationState) (libs : List Library) :
    Option JStr :=
  match pagination.libraryKey with
  | some k => some k
  | none =>
    match libs.head? with
    | some l => if l.id.isEmpty then none else some l.id
    | none => none

/-- The "Previous page" entry both collection handlers push when
`offset > 0`: offset `max(0, offset - pageSize)`, and the bare route
token when that offset is 0. -/
def collectionPrevItems (baseUri libraryKey : JStr) (offset pageSize : Int) :
    List NavItem :=
  if offset > 0 then
    [{ service := "plex".toList, type := "item".toList,
       title := "Previous page".toList,
       uri := if max 0 (offset - pageSize) = 0 then baseUri
              else baseUri ++ '@' :: libraryKey ++ ':'
                     :: intToJs (max 0 (offset - pageSize)),
       icon := some "fa fa-arrow-circle-up".toList,
       albumart := none, artist := none }]
  else []

/-- The "Load more..." entry both collection handlers push: same
collection at `nextOffset` while `nextOffset < totalSize`, else the next
library (in catalog order) at offset 0, else nothing. -/
def collectionLoadMoreItems (libs : List Library) (baseUri libraryKey : JStr)
    (nextOffset totalSize : Int) : List NavItem :=
  if nextOffset < totalSize then
    [{ service := "plex".toList, type := "item".toList,
       title := "Load more...".toList,
       uri := baseUri ++ '@' :: libraryKey ++ ':' :: intToJs nextOffset,
       icon := some "fa fa-arrow-circle-down".toList,
       albumart := none, artist := none }]
  else
    match jsGetElem libs (jsFindIndex (fun l => l.id == libraryKey) libs + 1) with
    | some nextLib =>
      [{ service := "plex".toList, type := "item".toList,
         title := "Load more...".toList,
         uri := baseUri ++ '@' :: nextLib.id ++ ':' :: ['0'],
         icon := some "fa fa-arrow-circle-down".toList,
         albumart := none, artist := none }]
    | none => []

/-- The per-artist folder item of `browseArtists` (`getArtworkUrl` of
the service passed explicitly). -/
def artistNavItem (art : JStr → JStr) (a : Artist) : NavItem :=
  { service := "plex".toList, type := "folder".toList, title := a.title,
    uri := "plex/artist/".toList ++ encodePathSegment a.albumsKey,
    icon := none, albumart := a.artworkUrl.map art, artist := none }

/-- The per-album folder item of `browseAlbums`. -/
def albumNavItem (art : JStr → JStr) (a : Album) : NavItem :=
  { service := "plex".toList, type := "folder".toList, title := a.title,
    uri := "plex/album/".toList ++ encodePathSegment a.trackListKey,
    icon := none, albumart := a.artworkUrl.map art, artist := some a.artist }

/-- The `items` array assembled by `browseArtists` for resolved library
`libraryKey` and fetched page `result`: previous-page entry, artist
entries, load-more entry. -/
def browseArtistsItems (art : JStr → JStr) (libs : List Library)
    (libraryKey : JStr) (pagination : PaginationState)
    (options : BrowseOptions) (result : PaginatedResult Artist) :
    List NavItem :=
  collectionPrevItems (artistsBaseUri pagination.sort) libraryKey
      pagination.offset options.pageSize
    ++ result.items.map (artistNavItem art)
    ++ collectionLoadMoreItems libs (artistsBaseUri pagination.sort) libraryKey
         (pagination.offset + result.items.length) result.totalSize

/-- The `items` array assembled by `browseAlbums`. -/
def browseAlbumsItems (art : JStr → JStr) (libs : List Library)
    (libraryKey : JStr) (pagination : PaginationState)
    (options : BrowseOptions) (result : PaginatedResult Album) :
    List NavItem :=
  collectionPrevItems (albumsBaseUri pagination.sort) libraryKey
      pagination.offset options.pageSize
    ++ result.items.map (albumNavItem art)
    ++ collectionLoadMoreItems libs (albumsBaseUri pagination.sort) libraryKey
         (pagination.offset + result.items.length) result.totalSize

/-- **C2.** The "load more" link of a collection-list page: while
`nextOffset = offset + items.length < totalSize` it carries the same
collection at `nextOffset`; once the collection is exhausted it carries
the next library in catalog order at offset 0; when no next library
exists, no "load more" entry is emitted.  The last two conjuncts show
`browseArtists`/`browseAlbums` assemble their item arrays from exactly
this logic, and evaluate the rollover scenario of the spec: collection A
(totalSize 2, pageSize 100) followed by collection B yields a load-more
token at B, offset 0. -/
theorem collection_load_more_rollover :
    (∀ (libs : List Library) (baseUri K : JStr) (nextOffset totalSize : Int),
      nextOffset < totalSize →
      collectionLoadMoreItems libs baseUri K nextOffset totalSize
        = [{ service := "plex".toList, type := "item".toList,
             title := "Load more...".toList,
             uri := baseUri ++ '@' :: K ++ ':' :: intToJs nextOffset,
             icon := some "fa fa-arrow-circle-down".toList,
             albumart := none, artist := none }])
    ∧ (∀ (libs : List Library) (baseUri K : JStr) (nextOffset totalSize : Int)
        (i : Nat) (L2 : Library),
      totalSize ≤ nextOffset →
      List.findIdx? (fun l => l.id == K) libs = some i →
      libs.get? (i + 1) = some L2 →
      collectionLoadMoreItems libs baseUri K nextOffset totalSize
        = [{ service := "plex".toList, type := "item".toList,
             title := "Load more...".toList,
             uri := baseUri ++ '@' :: L2.id ++ ':' :: ['0'],
             icon := some "fa fa-arrow-circle-down".toList,
             albumart := none, artist := none }])
    ∧ (∀ (libs : List Library) (baseUri K : JStr) (nextOffset totalSize : Int)
        (i : Nat),
      totalSize ≤ nextOffset →
      List.findIdx? (fun l => l.id == K) libs = some i →
      libs.get? (i + 1) = none →
      collectionLoadMoreItems libs baseUri K nextOffset totalSize = [])
    ∧ (∀ (art : JStr → JStr) (libs : List Library) (K : JStr)
        (pag : PaginationState) (opts : BrowseOptions)
        (result : PaginatedResult Artist),
      browseArtistsItems art libs K pag opts result
        = collectionPrevItems (artistsBaseUri pag.sort) K pag.offset
            opts.pageSize
          ++ result.items.map (artistNavItem art)
          ++ collectionLoadMoreItems libs (artistsBaseUri pag.sort) K
               (pag.offset + result.items.length) result.totalSize)
    ∧ (∀ (art : JStr → JStr) (libs : List Library) (K : JStr)
        (pag : PaginationState) (opts : BrowseOptions)
        (result : PaginatedResult Album),
      browseAlbumsItems art libs K pag opts result
        = collectionPrevItems (albumsBaseUri pag.sort) K pag.offset
            opts.pageSize
          ++ result.items.map (albumNavItem art)
          ++ collectionLoadMoreItems libs (albumsBaseUri pag.sort) K
               (pag.offset + result.items.length) result.totalSize)
    ∧ collectionLoadMoreItems
        [{ id := "1".toList, title := "A".toList, type := "artist".toList },
         { id := "3".toList, title := "B".toList, type := "artist".toList }]
        "plex/artists".toList "1".toList (0 + 2) 2
        = [{ service := "plex".toList, type := "item".toList,
             title := "Load more...".toList,
             uri := "plex/artists@3:0".toList,
             icon := some "fa fa-arrow-circle-down".toList,
             albumart := none, artist := none }] := by
  refine ⟨?_, ?_, ?_, fun _ _ _ _ _ _ => rfl, fun _ _ _ _ _ _ => rfl, by decide⟩
  · intro libs baseUri K nextOffset totalSize h
    unfold collectionLoadMoreItems
    rw [if_pos h]
  · intro libs baseUri K nextOffset totalSize i L2 h hfind hget
    have hfi : jsFindIndex (fun l => l.id == K) libs = (i : Int) := by
      unfold jsFindIndex
      rw [hfind]
    have hj : jsGetElem libs (jsFindIndex (fun l => l.id == K) libs + 1)
        = some L2 := by
      rw [hfi]
      unfold jsGetElem
      rw [if_neg (by omega), show ((i : Int) + 1).toNat = i + 1 from by omega]
      exact hget
    unfold collectionLoadMoreItems
    rw [if_neg (by omega), hj]
  · intro libs baseUri K nextOffset totalSize i h hfind hget
    have hfi : jsFindIndex (fun l => l.id == K) libs = (i : Int) := by
      unfold jsFindIndex
      rw [hfind]
    have hj : jsGetElem libs (jsFindIndex (fun l => l.id == K) libs + 1)
        = none := by
      rw [hfi]
      unfold jsGetElem
      rw [if_neg (by omega), show ((i : Int) + 1).toNat = i + 1 from by omega]
      exact hget
    unfold collectionLoadMoreItems
    rw [if_neg (by omega), hj]

/-- Witness for C2 at the rollover scenario (A exhausted after 2 items,
B follows). -/
theorem collection_load_more_rollover_witness :
    ((2 : Int) ≤ 0 + 2
      ∧ List.findIdx? (fun (l : Library) => l.id == "1".toList)
          [{ id := "1".toList, title := "A".toList, type := "artist".toList },
           { id := "3".toList, title := "B".toList, type := "artist".toList }]
          = some 0
      ∧ ([{ id := "1".toList, title := "A".toList, type := "artist".toList },
          { id := "3".toList, title := "B".toList, type := "artist".toList }]
          : List Library).get? (0 + 1)
          = some { id := "3".toList, title := "B".toList, type := "artist".toList })
    ∧ collectionLoadMoreItems
        [{ id := "1".toList, title := "A".toList, type := "artist".toList },
         { id := "3".toList, title := "B".toList, type := "artist".toList }]
        "plex/artists".toList "1".toList (0 + 2) 2
        = [{ service := "plex".toList, type := "item".toList,
             title := "Load more...".toList,
             uri := "plex/artists".toList ++ '@'
               :: ({ id := "3".toList, title := "B".toList,
                     type := "artist".toList } : Library).id ++ ':' :: ['0'],
             icon := some "fa fa-arrow-circle-down".toList,
             albumart := none, artist := none }] :=
  ⟨by decide,
   collection_load_more_rollover.2.1
     [{ id := "1".toList, title := "A".toList, type := "artist".toList },
      { id := "3".toList, title := "B".toList, type := "artist".toList }]
     "plex/artists".toList "1".toList (0 + 2) 2 0
     { id := "3".toList, title := "B".toList, type := "artist".toList }
     (by decide) (by decide) (by decide)⟩

/-- **C10.** The "previous page" entry of a collection-list page is
present exactly when `offset > 0` and carries offset
`max(0, offset - pageSize)`; when that offset is 0 the token is the bare
route token (sort part included, cursor omitted).  A bare route token
parses to the cursorless state `{libraryKey: null, offset: 0}`, and a
null cursor key resolves to the first library in catalog order — so
"previous" from the first paged page of any collection lands on the
first collection at offset 0, not the current one. -/
theorem collection_previous_page_token :
    (∀ (baseUri K : JStr) (offset pageSize : Int),
      (offset ≤ 0 → collectionPrevItems baseUri K offset pageSize = [])
      ∧ (0 < offset → max 0 (offset - pageSize) = 0 →
          collectionPrevItems baseUri K offset pageSize
            = [{ service := "plex".toList, type := "item".toList,
                 title := "Previous page".toList, uri := baseUri,
                 icon := some "fa fa-arrow-circle-up".toList,
                 albumart := none, artist := none }])
      ∧ (0 < offset → ¬max 0 (offset - pageSize) = 0 →
          collectionPrevItems baseUri K offset pageSize
            = [{ service := "plex".toList, type := "item".toList,
                 title := "Previous page".toList,
                 uri := baseUri ++ '@' :: K ++ ':'
                   :: intToJs (max 0 (offset - pageSize)),
                 icon := some "fa fa-arrow-circle-up".toList,
                 albumart := none, artist := none }]))
    ∧ (∀ sort : Option JStr, (∀ s, sort = some s → '@' ∉ s) →
        parsePaginationUri (artistsBaseUri sort)
          = { libraryKey := none, offset := 0 })
    ∧ (∀ sort : Option JStr, (∀ s, sort = some s → '@' ∉ s) →
        parsePaginationUri (albumsBaseUri sort)
          = { libraryKey := none, offset := 0 })
    ∧ (∀ (pag : PaginationState) (libs : List Library) (l0 : Library),
        pag.libraryKey = none → libs.head? = some l0 → l0.id.isEmpty = false →
        resolveLibraryKey pag libs = some l0.id) := by
  refine ⟨?_, ?_, ?_, ?_⟩
  · intro baseUri K offset pageSize
    refine ⟨?_, ?_, ?_⟩
    · intro h
      unfold collectionPrevItems
      rw [if_neg (by omega)]
    · intro h h0
      unfold collectionPrevItems
      rw [if_pos (by omega), if_pos h0]
    · intro h h0
      unfold collectionPrevItems
      rw [if_pos (by omega), if_neg h0]
  · intro sort hs
    have hfi : List.findIdx? (fun x => x == '@') (artistsBaseUri sort) = none := by
      rw [List.findIdx?_eq_none_iff]
      intro x hx
      rw [beq_eq_false_iff_ne]
      intro he
      subst he
      unfold artistsBaseUri at hx
      rcases List.mem_append.mp hx with h | h
      · revert h; decide
      · cases hsort : sort with
        | none => rw [hsort] at h; cases h
        | some s =>
          rw [hsort] at h
          rcases List.mem_cons.mp h with h | h
          · cases h
          · exact hs s hsort h
    unfold parsePaginationUri
    rw [hfi]
  · intro sort hs
    have hfi : List.findIdx? (fun x => x == '@') (albumsBaseUri sort) = none := by
      rw [List.findIdx?_eq_none_iff]
      intro x hx
      rw [beq_eq_false_iff_ne]
      intro he
      subst he
      unfold albumsBaseUri at hx
      rcases List.mem_append.mp hx with h | h
      · revert h; decide
      · cases hsort : sort with
        | none => rw [hsort] at h; cases h
        | some s =>
          rw [hsort] at h
          rcases List.mem_cons.mp h with h | h
          · cases h
          · exact hs s hsort h
    unfold parsePaginationUri
    rw [hfi]
  · intro pag libs l0 hpag hhead hempty
    unfold resolveLibraryKey
    rw [hpag, hhead]
    show (if l0.id.isEmpty = true then none else some l0.id) = some l0.id
    rw [if_neg (by simp [hempty])]

/-- Witness for C10: previous from `plex/artists~titleSort:asc@1:100`
(offset 100, pageSize 100) is the bare sorted route token, which parses
cursorless and resolves to the first library. -/
theorem collection_previous_page_token_witness :
    ((0 : Int) < 100 ∧ max 0 ((100 : Int) - 100) = 0
      ∧ (∀ s, (some "titleSort:asc".toList : Option JStr) = some s → '@' ∉ s)
      ∧ ({ libraryKey := none, offset := 100, sort := some "titleSort:asc".toList }
          : PaginationState).libraryKey = none
      ∧ ([{ id := "1".toList, title := "A".toList, type := "artist".toList },
          { id := "3".toList, title := "B".toList, type := "artist".toList }]
          : List Library).head?
          = some { id := "1".toList, title := "A".toList, type := "artist".toList }
      ∧ ({ id := "1".toList, title := "A".toList, type := "artist".toList }
          : Library).id.isEmpty = false)
    ∧ collectionPrevItems (artistsBaseUri (some "titleSort:asc".toList))
        "1".toList 100 100
        = [{ service := "plex".toList, type := "item".toList,
             title := "Previous page".toList,
             uri := artistsBaseUri (some "titleSort:asc".toList),
             icon := some "fa fa-arrow-circle-up".toList,
             albumart := none, artist := none }]
    ∧ parsePaginationUri (artistsBaseUri (some "titleSort:asc".toList))
        = { libraryKey := none, offset := 0 }
    ∧ resolveLibraryKey
        { libraryKey := none, offset := 100, sort := some "titleSort:asc".toList }
        [{ id := "1".toList, title := "A".toList, type := "artist".toList },
         { id := "3".toList, title := "B".toList, type := "artist".toList }]
        = some ({ id := "1".toList, title := "A".toList,
                  type := "artist".toList } : Library).id :=
  ⟨⟨by decide, by decide, by decide, by decide, by decide, by decide⟩,
   (collection_previous_page_token.1 (artistsBaseUri (some "titleSort:asc".toList))
      "1".toList 100 100).2.1 (by decide) (by decide),
   collection_previous_page_token.2.1 (some "titleSort:asc".toList)
     (by intro s hs; cases hs; decide),
   collection_previous_page_token.2.2.2
     { libraryKey := none, offset := 100, sort := some "titleSort:asc".toList }
     [{ id := "1".toList, title := "A".toList, type := "artist".toList },
      { id := "3".toList, title := "B".toList, type := "artist".toList }]
     { id := "1".toList, title := "A".toList, type := "artist".toList }
     (by decide) (by decide) (by decide)⟩

-- ══════════════════════════════════════════════════════════════════════
-- shuffleArray (`src/volumio/uri-utils.ts`, Fisher-Yates)
-- ══════════════════════════════════════════════════════════════════════

/-- The swap `[a[i], a[j]] = [a[j], a[i]]` (identity when an index is out
of range, which never happens in the loop). -/
def listSwap {α : Type} (l : List α) (i j : Nat) : List α :=
  match l.get? i, l.get? j with
  | some a, some b => (l.set i b).set j a
  | _, _ => l

theorem listSwap_eq_of_lt {α : Type} (l : List α) (i j : Nat)
    (hi : i < l.length) (hj : j < l.length) :
    listSwap l i j = (l.set i (l.get ⟨j, hj⟩)).set j (l.get ⟨i, hi⟩) := by
  unfold listSwap
  rw [List.get?_eq_getElem?, List.get?_eq_getElem?,
    List.getElem?_eq_getElem hi, List.getElem?_eq_getElem hj]
  rfl

theorem listSwap_length {α : Type} (l : List α) (i j : Nat) :
    (listSwap l i j).length = l.length := by
  unfold listSwap
  cases h1 : l.get? i <;> cases h2 : l.get? j <;> simp

theorem listSwap_perm {α : Type} [DecidableEq α] (l : List α) (i j : Nat)
    (hi : i < l.length) (hj : j < l.length) : List.Perm (listSwap l i j) l := by
  rw [listSwap_eq_of_lt l i j hi hj, List.perm_iff_count]
  intro x
  have hj' : j < (l.set i (l.get ⟨j, hj⟩)).length := by simp [hj]
  rw [List.count_set _ _ _ _ hj', List.count_set _ _ _ _ hi]
  simp only [List.get_eq_getElem]
  have hbi : (if (l[i] == x) = true then 1 else 0) ≤ List.count x l := by
    split
    · next hx =>
      refine List.count_pos_iff.mpr ?_
      rw [← eq_of_beq hx]
      exact List.getElem_mem hi
    · exact Nat.zero_le _
  by_cases hij : i = j
  · subst hij
    simp only [List.getElem_set, eq_self_iff_true, if_true]
    cases h1 : (l[i] == x) <;>
      simp only [h1, Bool.false_eq_true, if_true, if_false] at hbi ⊢ <;>
      omega
  · simp only [List.getElem_set, if_neg hij]
    cases h1 : (l[i] == x) <;> cases h2 : (l[j] == x) <;>
      simp only [h1, h2, Bool.false_eq_true, if_true, if_false] at hbi ⊢ <;>
      omega

/-- Fisher-Yates with the random draws made explicit: `js` lists, for
`i = length - 1` down to `1`, the drawn index
`j = Math.floor(Math.random() * (i + 1))`; each iteration swaps
`array[i]` and `array[j]`, after which position `i` is final and the loop
continues on the prefix before it. -/
def shuffleArrayWith {α : Type} : List Nat → List α → List α
  | [], l => l
  | j :: js, l =>
    match (listSwap l (l.length - 1) j).getLast? with
    | some x => shuffleArrayWith js (listSwap l (l.length - 1) j).dropLast ++ [x]
    | none => []

/-- A draw sequence the loop can actually produce for an array of length
`n`: one entry per iteration (so `n - 1` of them) and the draw at
iteration `i` lies in `[0, i]`. -/
def validChoices : Nat → List Nat → Bool
  | n, [] => decide (n ≤ 1)
  | n, j :: js => decide (2 ≤ n) && decide (j < n) && validChoices (n - 1) js

theorem listSwap_last_getLast? {α : Type} (l : List α) (j : Nat) (hj : j < l.length) :
    (listSwap l (l.length - 1) j).getLast? = some (l.get ⟨j, hj⟩) := by
  have hpos : 0 < l.length := Nat.lt_of_le_of_lt (Nat.zero_le j) hj
  have hn : l.length - 1 < l.length := Nat.sub_lt hpos one_pos
  rw [List.getLast?_eq_getElem?, listSwap_length,
    listSwap_eq_of_lt l (l.length - 1) j hn hj]
  simp only [List.getElem?_set, List.length_set]
  by_cases hjn : j = l.length - 1
  · subst hjn
    simp [hn]
  · rw [if_neg hjn]
    simp [hn]

theorem shuffleArrayWith_cons {α : Type} (j : Nat) (js : List Nat) (l : List α)
    (hj : j < l.length) :
    shuffleArrayWith (j :: js) l =
      shuffleArrayWith js (listSwap l (l.length - 1) j).dropLast ++ [l.get ⟨j, hj⟩] := by
  show (match (listSwap l (l.length - 1) j).getLast? with
    | some x => shuffleArrayWith js (listSwap l (l.length - 1) j).dropLast ++ [x]
    | none => []) = _
  rw [listSwap_last_getLast? l j hj]

theorem listSwap_ne_nil {α : Type} (l : List α) (i j : Nat) (h : 0 < l.length) :
    listSwap l i j ≠ [] := by
  intro hc
  have hl := listSwap_length l i j
  rw [hc] at hl
  simp at hl
  omega

theorem listSwap_getLast_val {α : Type} (l : List α) (j : Nat) (hj : j < l.length)
    (hne : listSwap l (l.length - 1) j ≠ []) :
    (listSwap l (l.length - 1) j).getLast hne = l.get ⟨j, hj⟩ := by
  have h := listSwap_last_getLast? l j hj
  rw [List.getLast?_eq_getLast _ hne] at h
  exact Option.some.inj h

theorem shuffleArrayWith_perm {α : Type} [DecidableEq α] (js : List Nat) :
    ∀ (l : List α), validChoices l.length js = true →
      List.Perm (shuffleArrayWith js l) l := by
  induction js with
  | nil => exact fun l _ => List.Perm.refl l
  | cons j js ih =>
    intro l h
    unfold validChoices at h
    simp only [Bool.and_eq_true, decide_eq_true_eq] at h
    obtain ⟨⟨-, hj⟩, hrest⟩ := h
    have hpos : 0 < l.length := Nat.lt_of_le_of_lt (Nat.zero_le j) hj
    have hn : l.length - 1 < l.length := Nat.sub_lt hpos one_pos
    rw [shuffleArrayWith_cons j js l hj]
    have hne2 : listSwap l (l.length - 1) j ≠ [] := listSwap_ne_nil l _ j hpos
    have hdl : (listSwap l (l.length - 1) j).dropLast.length = l.length - 1 := by
      rw [List.length_dropLast, listSwap_length]
    have hih := ih (listSwap l (l.length - 1) j).dropLast (by rw [hdl]; exact hrest)
    refine List.Perm.trans (hih.append_right _) ?_
    have heq : (listSwap l (l.length - 1) j).dropLast ++ [l.get ⟨j, hj⟩] =
        listSwap l (l.length - 1) j := by
      rw [← listSwap_getLast_val l j hj hne2]
      exact List.dropLast_append_getLast hne2
    rw [heq]
    exact listSwap_perm l (l.length - 1) j hn hj

theorem shuffleArrayWith_inj {α : Type} [DecidableEq α] (js1 : List Nat) :
    ∀ (js2 : List Nat) (l : List α), l.Nodup →
      validChoices l.length js1 = true → validChoices l.length js2 = true →
      shuffleArrayWith js1 l = shuffleArrayWith js2 l → js1 = js2 := by
  induction js1 with
  | nil =>
    intro js2 l _ h1 h2 _
    cases js2 with
    | nil => rfl
    | cons j2 t2 =>
      unfold validChoices at h1 h2
      simp only [Bool.and_eq_true, decide_eq_true_eq] at h1 h2
      omega
  | cons j1 t1 ih =>
    intro js2 l hnd h1 h2 heq
    cases js2 with
    | nil =>
      unfold validChoices at h1 h2
      simp only [Bool.and_eq_true, decide_eq_true_eq] at h1 h2
      omega
    | cons j2 t2 =>
      unfold validChoices at h1 h2
      simp only [Bool.and_eq_true, decide_eq_true_eq] at h1 h2
      obtain ⟨⟨-, hj1⟩, hr1⟩ := h1
      obtain ⟨⟨-, hj2⟩, hr2⟩ := h2
      rw [shuffleArrayWith_cons j1 t1 l hj1, shuffleArrayWith_cons j2 t2 l hj2] at heq
      have hlast := congrArg List.getLast? heq
      rw [List.getLast?_concat, List.getLast?_concat] at hlast
      have hxy : l.get ⟨j1, hj1⟩ = l.get ⟨j2, hj2⟩ := Option.some.inj hlast
      have hjj : j1 = j2 := by
        rw [List.get_eq_getElem, List.get_eq_getElem] at hxy
        exact (List.Nodup.getElem_inj_iff hnd).mp hxy
      subst hjj
      have hpre := congrArg List.dropLast heq
      rw [List.dropLast_concat, List.dropLast_concat] at hpre
      have hnd2 : (listSwap l (l.length - 1) j1).dropLast.Nodup :=
        List.Sublist.nodup (List.dropLast_sublist _)
          ((listSwap_perm l (l.length - 1) j1
            (Nat.sub_lt (Nat.lt_of_le_of_lt (Nat.zero_le j1) hj1) one_pos) hj1).symm.nodup hnd)
      have hdl : (listSwap l (l.length - 1) j1).dropLast.length = l.length - 1 := by
        rw [List.length_dropLast, listSwap_length]
      have ht := ih t2 (listSwap l (l.length - 1) j1).dropLast hnd2
        (by rw [hdl]; exact hr1) (by rw [hdl]; exact hr2) hpre
      rw [ht]

theorem shuffleArrayWith_surj {α : Type} [DecidableEq α] (n : Nat) :
    ∀ (l r : List α), l.length = n → List.Perm r l →
      ∃ js, validChoices l.length js = true ∧ shuffleArrayWith js l = r := by
  induction n with
  | zero =>
    intro l r hl hperm
    have hl0 : l = [] := List.length_eq_zero.mp hl
    subst hl0
    have hr0 : r = [] := List.perm_nil.mp hperm
    subst hr0
    exact ⟨[], rfl, rfl⟩
  | succ m ih =>
    intro l r hl hperm
    by_cases hm : m = 0
    · subst hm
      obtain ⟨a, ha⟩ := List.length_eq_one.mp hl
      subst ha
      have hr1 : r = [a] := List.perm_singleton.mp hperm
      subst hr1
      exact ⟨[], rfl, rfl⟩
    · have hrne : r ≠ [] := by
        intro hc
        subst hc
        have hle := hperm.length_eq
        rw [hl] at hle
        simp at hle
      have hlne : 0 < l.length := by rw [hl]; omega
      have hxl : r.getLast hrne ∈ l := (hperm.mem_iff).mp (List.getLast_mem hrne)
      obtain ⟨j, hj, hlj⟩ := List.mem_iff_getElem.mp hxl
      have hn1 : l.length - 1 < l.length := Nat.sub_lt hlne one_pos
      have hperm2 : List.Perm (listSwap l (l.length - 1) j) l := listSwap_perm l _ j hn1 hj
      have hne2 : listSwap l (l.length - 1) j ≠ [] := listSwap_ne_nil l _ j hlne
      have hxx : (listSwap l (l.length - 1) j).getLast hne2 = r.getLast hrne := by
        rw [listSwap_getLast_val l j hj hne2, List.get_eq_getElem]
        exact hlj
      have hpr : List.Perm r (listSwap l (l.length - 1) j) := hperm.trans hperm2.symm
      have hrsplit : r.dropLast ++ [r.getLast hrne] = r := List.dropLast_append_getLast hrne
      have hssplit : (listSwap l (l.length - 1) j).dropLast ++ [r.getLast hrne] =
          listSwap l (l.length - 1) j := by
        rw [← hxx]
        exact List.dropLast_append_getLast hne2
      rw [← hrsplit, ← hssplit] at hpr
      have hcons := ((List.perm_append_singleton (r.getLast hrne) r.dropLast).symm.trans
        hpr).trans (List.perm_append_singleton (r.getLast hrne) _)
      have hpd := (List.perm_cons (r.getLast hrne)).mp hcons
      have hdl : (listSwap l (l.length - 1) j).dropLast.length = m := by
        rw [List.length_dropLast, listSwap_length, hl]
        omega
      obtain ⟨js2, hv2, he2⟩ := ih (listSwap l (l.length - 1) j).dropLast r.dropLast hdl hpd
      refine ⟨j :: js2, ?_, ?_⟩
      · show validChoices l.length (j :: js2) = true
        unfold validChoices
        simp only [Bool.and_eq_true, decide_eq_true_eq]
        refine ⟨⟨by rw [hl]; omega, hj⟩, ?_⟩
        have hlen : l.length - 1 = (listSwap l (l.length - 1) j).dropLast.length := by
          rw [hdl, hl]
          omega
        rw [hlen]
        exact hv2
      · rw [shuffleArrayWith_cons j js2 l hj, he2, List.get_eq_getElem]
        rw [hlj]
        exact hrsplit

/-- C9: `shuffleArray` applies an unbiased Fisher-Yates permutation: for
every array of distinct items, the map from valid random-draw sequences
(`j` uniform in `[0, i]` for `i = n-1` down to `1`) to result arrays is a
bijection onto the permutations of the input, so under uniform independent
draws every permutation is produced with equal probability `1/n!`. -/
theorem shuffleArray_unbiased {α : Type} [DecidableEq α] (l : List α) (hnd : l.Nodup) :
    Set.BijOn (fun js => shuffleArrayWith js l)
      {js : List Nat | validChoices l.length js = true}
      {r : List α | List.Perm r l} := by
  refine ⟨?_, ?_, ?_⟩
  · intro js hjs
    exact shuffleArrayWith_perm js l hjs
  · intro js1 h1 js2 h2 heq
    exact shuffleArrayWith_inj js1 js2 l hnd h1 h2 heq
  · intro r hr
    obtain ⟨js, hv, he⟩ := shuffleArrayWith_surj l.length l r rfl hr
    exact ⟨js, hv, he⟩

theorem shuffleArray_unbiased_witness :
    ([0, 1, 2, 3] : List Nat).Nodup ∧
    Set.BijOn (fun js => shuffleArrayWith js ([0, 1, 2, 3] : List Nat))
      {js : List Nat | validChoices ([0, 1, 2, 3] : List Nat).length js = true}
      {r : List Nat | List.Perm r [0, 1, 2, 3]} :=
  ⟨by decide, shuffleArray_unbiased [0, 1, 2, 3] (by decide)⟩

-- ══════════════════════════════════════════════════════════════════════
-- getPlayableTrack (`PlexService`, with `parseTracks` of the parsers
-- module) and the error classes of `api-client`
-- ══════════════════════════════════════════════════════════════════════

structure RawPart where
  key : JStr
deriving DecidableEq

structure RawMedia where
  Part : List RawPart
deriving DecidableEq

structure RawTrackMeta where
  ratingKey : JStr
  title : JStr
  grandparentTitle : JStr
  parentTitle : JStr
  duration : Nat
  thumb : Option JStr
  Media : List RawMedia
deriving DecidableEq

structure RawMediaContainer where
  Metadata : Option (List RawTrackMeta)
deriving DecidableEq

structure RawTrackResponse where
  MediaContainer : RawMediaContainer
deriving DecidableEq

structure Track where
  id : JStr
  title : JStr
  artist : JStr
  album : JStr
  duration : Nat
  artworkUrl : Option JStr
  streamKey : JStr
deriving DecidableEq

/-- `parseTracks`: maps `MediaContainer.Metadata ?? []`; the stream key is
`item.Media[0]?.Part[0]?.key ?? ""`. -/
def parseTracks (raw : RawTrackResponse) : List Track :=
  (raw.MediaContainer.Metadata.getD []).map (fun item =>
    { id := item.ratingKey
      title := item.title
      artist := item.grandparentTitle
      album := item.parentTitle
      duration := item.duration
      artworkUrl := item.thumb
      streamKey := ((item.Media.head?.bind (fun m => m.Part.head?)).map
        RawPart.key).getD [] })

/-- The throwable kinds in the codebase: the three error classes declared
in `api-client` (`PlexApiError`, `PlexAuthError extends PlexApiError`,
`PlexConnectionError`) plus the built-in generic `Error`. No other error
class is declared anywhere in the sources. -/
inductive JsError where
  | generic (message : JStr)
  | apiError (message : JStr) (status : Nat)
  | authError (message : JStr) (status : Nat)
  | connectionError (message : JStr)
deriving DecidableEq

structure PlayableTrack where
  track : Track
  streamUrl : JStr
deriving DecidableEq

deriving instance DecidableEq for Except

/-- `PlexService.getPlayableTrack`, with the already-fetched metadata
response passed explicitly. Throws become `Except.error`. The success
branch calls `buildStreamUrl({...this.connection, trackKey})`, in which
`transcode`/`format` are absent (falsy). -/
def getPlayableTrack (conn : PlexConnection) (trackId : JStr)
    (raw : RawTrackResponse) : Except JsError PlayableTrack :=
  match parseTracks raw with
  | [] => Except.error (JsError.generic ("Track not found: ".toList ++ trackId))
  | track :: _ =>
    if track.streamKey.isEmpty then
      Except.error (JsError.generic
        ("Track ".toList ++ trackId ++ " has no playable media".toList))
    else
      Except.ok
        { track := track
          streamUrl := buildStreamUrl
            { host := conn.host, port := conn.port, token := conn.token,
              https := conn.https, trackKey := track.streamKey,
              transcode := false, format := [] } }

def connC6 : PlexConnection :=
  { host := "plex.local".toList, port := 32400, token := "tok".toList,
    https := false }

def noMediaTrackResponse : RawTrackResponse :=
  { MediaContainer := { Metadata := some [
      { ratingKey := "2001".toList, title := "Song".toList,
        grandparentTitle := "Artist".toList, parentTitle := "Album".toList,
        duration := 1000, thumb := none, Media := [] } ] } }

/-- C6 (corrected): when the requested track resolves to zero parsed
items, or to an item whose first media entry is missing (zero underlying
media files), `getPlayableTrack` rejects with the generic built-in
`Error` kind — messages `Track not found: id` and
`Track id has no playable media` — not with a distinct NotFoundError
domain error; no NotFoundError class exists in the codebase, so callers
can distinguish the condition from a `PlexConnectionError` only by the
error message, not by its kind. -/
theorem getPlayableTrack_error_kinds (conn : PlexConnection) (trackId : JStr)
    (raw : RawTrackResponse) :
    (parseTracks raw = [] →
      getPlayableTrack conn trackId raw =
        Except.error (JsError.generic ("Track not found: ".toList ++ trackId))) ∧
    (∀ t ts, parseTracks raw = t :: ts → t.streamKey = [] →
      getPlayableTrack conn trackId raw =
        Except.error (JsError.generic
          ("Track ".toList ++ trackId ++ " has no playable media".toList))) := by
  constructor
  · intro h
    unfold getPlayableTrack
    rw [h]
  · intro t ts h hsk
    unfold getPlayableTrack
    rw [h]
    show (if t.streamKey.isEmpty then _ else _) = _
    rw [hsk]
    rfl

theorem getPlayableTrack_error_kinds_witness :
    parseTracks noMediaTrackResponse =
      [{ id := "2001".toList, title := "Song".toList, artist := "Artist".toList,
         album := "Album".toList, duration := 1000, artworkUrl := none,
         streamKey := [] }] ∧
    getPlayableTrack connC6 "2001".toList noMediaTrackResponse =
      Except.error (JsError.generic
        ("Track ".toList ++ "2001".toList ++ " has no playable media".toList)) :=
  ⟨by decide, (getPlayableTrack_error_kinds connC6 "2001".toList
      noMediaTrackResponse).2
      { id := "2001".toList, title := "Song".toList, artist := "Artist".toList,
        album := "Album".toList, duration := 1000, artworkUrl := none,
        streamKey := [] } [] (by decide) (by decide)⟩

/-- The original claim's counterexample: a track with zero media files
makes `getPlayableTrack` reject with the generic `Error` kind (the
codebase's error taxonomy has no NotFoundError), so the rejection is a
generic error after all. -/
theorem getPlayableTrack_no_notfound_kind :
    getPlayableTrack connC6 "2001".toList noMediaTrackResponse =
      Except.error (JsError.generic
        "Track 2001 has no playable media".toList) := by decide

-- ══════════════════════════════════════════════════════════════════════
-- installStateMaskHook (`adapter`): state URIs are sanitised with
-- uri.replace(/X-Plex-Token=[^&]+/, "X-Plex-Token=████████")
-- ══════════════════════════════════════════════════════════════════════

structure VolumioState where
  status : JStr
  uri : Option JStr
deriving DecidableEq

/-- One attempted match of the regex `X-Plex-Token=[^&]+` at the head of
`s`: the literal prefix, then one-or-more (greedy) characters other than
`&`. -/
def tokenMatchAt (s : JStr) : Option (JStr × JStr) :=
  if jsStartsWith "X-Plex-Token=".toList s then
    if ((s.drop 13).takeWhile (fun c => !(c == '&'))).isEmpty then none
    else some ((s.drop 13).takeWhile (fun c => !(c == '&')),
      (s.drop 13).dropWhile (fun c => !(c == '&')))
  else none

/-- `String.prototype.replace` with a non-global regex: only the
leftmost match is replaced. -/
def replaceTokenOnce : JStr → JStr
  | [] => []
  | c :: rest =>
    match tokenMatchAt (c :: rest) with
    | some (_, after) => "X-Plex-Token=████████".toList ++ after
    | none => c :: replaceTokenOnce rest

/-- The wrapped `servicePushState`: mask the URI when it is truthy and
contains `X-Plex-Token`. -/
def maskState (s : VolumioState) : VolumioState :=
  match s.uri with
  | some u =>
    if !u.isEmpty && jsIncludes "X-Plex-Token".toList u then
      { s with uri := some (replaceTokenOnce u) }
    else s
  | none => s

theorem jsIncludes_of_isPrefixOf (pat s : JStr) (h : pat.isPrefixOf s = true) :
    jsIncludes pat s = true := by
  cases s with
  | nil => exact h
  | cons c r =>
    unfold jsIncludes
    rw [h]
    rfl

theorem jsIncludes_append_left (pat pre s : JStr) (h : jsIncludes pat s = true) :
    jsIncludes pat (pre ++ s) = true := by
  induction pre with
  | nil => exact h
  | cons c r ih =>
    show jsIncludes pat (c :: (r ++ s)) = true
    unfold jsIncludes
    rw [ih]
    simp

theorem takeWhile_all {α : Type} {p : α → Bool} {g : List α}
    (hg : ∀ x ∈ g, p x = true) :
    g.takeWhile p = g ∧ g.dropWhile p = [] := by
  induction g with
  | nil => simp
  | cons a t ih =>
    have ha : p a = true := hg a (by simp)
    have ih' := ih (fun x hx => hg x (by simp [hx]))
    simp [List.takeWhile_cons, List.dropWhile_cons, ha, ih'.1, ih'.2]

theorem tokenMatchAt_none (c : Char) (rest : JStr) (hc : ¬ c = 'X') :
    tokenMatchAt (c :: rest) = none := by
  unfold tokenMatchAt
  have hpre : jsStartsWith "X-Plex-Token=".toList (c :: rest) = false := by
    unfold jsStartsWith
    show List.isPrefixOf ('X' :: "-Plex-Token=".toList) (c :: rest) = false
    unfold List.isPrefixOf
    have hx : (('X' : Char) == c) = false := beq_eq_false_iff_ne.mpr (fun h => hc h.symm)
    rw [hx, Bool.false_and]
  rw [hpre]
  rfl

theorem tokenMatchAt_match (tok suf : JStr) (htok : tok ≠ [])
    (hamp : ∀ c ∈ tok, ¬ c = '&')
    (hsuf : suf = [] ∨ ∃ r, suf = '&' :: r) :
    tokenMatchAt (("X-Plex-Token=".toList ++ tok) ++ suf) = some (tok, suf) := by
  unfold tokenMatchAt
  have hst : jsStartsWith "X-Plex-Token=".toList
      (("X-Plex-Token=".toList ++ tok) ++ suf) = true := by
    unfold jsStartsWith
    rw [List.isPrefixOf_iff_prefix, List.append_assoc]
    exact List.prefix_append _ _
  rw [hst]
  have hdrop : ((("X-Plex-Token=".toList ++ tok) ++ suf)).drop 13 = tok ++ suf := by
    rw [List.append_assoc]
    have h13 : ("X-Plex-Token=".toList).length = 13 := rfl
    rw [← h13, List.drop_left]
  rw [hdrop]
  have hp : ∀ c ∈ tok, ((fun c => !(c == '&')) c) = true := by
    intro c hc
    simp only [Bool.not_eq_eq_eq_not, Bool.not_true, beq_eq_false_iff_ne]
    exact hamp c hc
  rcases hsuf with h | ⟨r, h⟩
  · subst h
    rw [List.append_nil, (takeWhile_all hp).1, (takeWhile_all hp).2]
    cases tok with
    | nil => exact absurd rfl htok
    | cons a t => rfl
  · subst h
    have hy : ((fun c => !(c == '&')) '&') = false := by decide
    rw [(takeWhile_append_not hp hy r).1, (takeWhile_append_not hp hy r).2]
    cases tok with
    | nil => exact absurd rfl htok
    | cons a t => rfl

theorem replaceTokenOnce_split (pre tok suf : JStr)
    (hpre : ∀ c ∈ pre, ¬ c = 'X') (htok : tok ≠ [])
    (hamp : ∀ c ∈ tok, ¬ c = '&')
    (hsuf : suf = [] ∨ ∃ r, suf = '&' :: r) :
    replaceTokenOnce (pre ++ "X-Plex-Token=".toList ++ tok ++ suf) =
      pre ++ "X-Plex-Token=████████".toList ++ suf := by
  induction pre with
  | nil =>
    simp only [List.nil_append]
    have hm := tokenMatchAt_match tok suf htok hamp hsuf
    have hu : ("X-Plex-Token=".toList ++ tok) ++ suf =
        'X' :: (("-Plex-Token=".toList ++ tok) ++ suf) := rfl
    rw [hu] at hm
    show replaceTokenOnce ('X' :: (("-Plex-Token=".toList ++ tok) ++ suf)) = _
    unfold replaceTokenOnce
    rw [hm]
  | cons c p ih =>
    have hc : ¬ c = 'X' := hpre c (by simp)
    have ih' := ih (fun x hx => hpre x (by simp [hx]))
    show replaceTokenOnce (c :: ((p ++ "X-Plex-Token=".toList ++ tok) ++ suf)) = _
    unfold replaceTokenOnce
    rw [tokenMatchAt_none c _ hc]
    show c :: replaceTokenOnce ((p ++ "X-Plex-Token=".toList ++ tok) ++ suf) = _
    rw [ih']
    rfl

/-- C8 (corrected): the wrapped `servicePushState` masks the token with a
non-global regex, so only the FIRST (leftmost) `X-Plex-Token=...` match in
the URI is replaced by the redaction marker, not every occurrence of the
token value: a state whose URI names the leftmost token parameter
`X-Plex-Token=tok` (preceded by no `X`, so no earlier match) is pushed
with exactly that parameter's value replaced by `████████` and the rest of
the URI — including any later occurrence of the token value — unchanged. -/
theorem state_mask_replaces_first (s : VolumioState) (pre tok suf : JStr)
    (huri : s.uri = some (pre ++ "X-Plex-Token=".toList ++ tok ++ suf))
    (hpre : ∀ c ∈ pre, ¬ c = 'X') (htok : tok ≠ [])
    (hamp : ∀ c ∈ tok, ¬ c = '&')
    (hsuf : suf = [] ∨ ∃ r, suf = '&' :: r) :
    maskState s =
      { s with uri := some (pre ++ "X-Plex-Token=████████".toList ++ suf) } := by
  unfold maskState
  rw [huri]
  show (if !(pre ++ "X-Plex-Token=".toList ++ tok ++ suf).isEmpty &&
      jsIncludes "X-Plex-Token".toList (pre ++ "X-Plex-Token=".toList ++ tok ++ suf)
    then { s with
      uri := some (replaceTokenOnce (pre ++ "X-Plex-Token=".toList ++ tok ++ suf)) }
    else s) = _
  have hinc : jsIncludes "X-Plex-Token".toList
      (pre ++ "X-Plex-Token=".toList ++ tok ++ suf) = true := by
    rw [List.append_assoc, List.append_assoc]
    refine jsIncludes_append_left _ pre _ ?_
    refine jsIncludes_of_isPrefixOf _ _ ?_
    rw [List.isPrefixOf_iff_prefix]
    show "X-Plex-Token".toList <+:
      "X-Plex-Token".toList ++ ('=' :: (tok ++ suf))
    exact List.prefix_append _ _
  have hek : (pre ++ "X-Plex-Token=".toList ++ tok ++ suf).isEmpty = false := by
    rcases pre with _ | ⟨a, t⟩
    · rfl
    · rfl
  rw [hinc, hek]
  show (if (!false && true) = true then _ else _) = _
  rw [if_pos (by decide)]
  rw [replaceTokenOnce_split pre tok suf hpre htok hamp hsuf]

theorem state_mask_replaces_first_witness :
    maskState
      { status := "play".toList,
        uri := some ("http://host/music/file.flac?".toList ++
          "X-Plex-Token=".toList ++ "SECRET123".toList ++ []) } =
      { status := "play".toList,
        uri := some ("http://host/music/file.flac?".toList ++
          "X-Plex-Token=████████".toList ++ []) } :=
  state_mask_replaces_first _ _ _ _ rfl (by decide) (by decide) (by decide)
    (Or.inl rfl)

def doubleTokenState : VolumioState :=
  { status := "play".toList,
    uri := some
      "http://h/f.flac?X-Plex-Token=SECRET123&other=SECRET123&X-Plex-Token=SECRET123".toList }

/-- The original claim's counterexample: the replace is not global, so a
URI in which the token value occurs more than once is pushed with the
later occurrences intact — the masked state still contains `SECRET123`. -/
theorem maskState_not_all_occurrences :
    (maskState doubleTokenState).uri =
      some "http://h/f.flac?X-Plex-Token=████████&other=SECRET123&X-Plex-Token=SECRET123".toList ∧
    jsIncludes "SECRET123".toList ((maskState doubleTokenState).uri.getD []) = true := by
  decide
